import Mathlib

/-!
Verification of the `Ultimate-Audiobooks` repository (`src/Main`) against its
natural-language specification.

The Python source is shallowly embedded:

* pure functions become Lean functions over `String` / `List Char` / `ℚ`;
* the mutable skip/fail ledgers of `BookStatus.py` become explicit state
  passing over a `LedgerState`;
* Python `float` (IEEE binary64) arithmetic is embedded exactly.  Every float
  in the embedded fragments lies well inside `[2^-100, 2^100]`, far from
  overflow and subnormals, so each binary64 operation is "compute the exact
  rational, then round to 53 significant bits, to nearest, ties to even".
  The function `fl` below implements exactly that rounding on `ℚ`;
* string handling (`str.lower`, `\w`, `\s`, …) is modelled at the ASCII level,
  which is faithful for all inputs appearing in the claims;
* filesystem-facing functions take the directory listing they would observe
  as an explicit argument (in the scan order the `glob` iterator yields).
-/

namespace UltimateAudiobooks

/-! ### Python string primitives (ASCII model) -/

/-- Python `\s` / `str.strip()` whitespace: space, tab, newline, carriage
return, vertical tab, form feed (ASCII model of the Unicode class). -/
def pyIsSpace (c : Char) : Bool :=
  c = ' ' || c = '\t' || c = '\n' || c = '\r' || c = '\x0b' || c = '\x0c'

/-- Python `str.strip()`: drop leading and trailing whitespace. -/
def pyStripChars (l : List Char) : List Char :=
  ((l.dropWhile pyIsSpace).reverse.dropWhile pyIsSpace).reverse

/-- State machine for `re.sub(r'\s+', ' ', ·)`: collapse every maximal
whitespace run to a single space.  The flag records whether the previous
character was whitespace. -/
def collapseWsAux : Bool → List Char → List Char
  | _, [] => []
  | inWs, c :: rest =>
    if pyIsSpace c then
      if inWs then collapseWsAux true rest else ' ' :: collapseWsAux true rest
    else c :: collapseWsAux false rest

/-- `re.sub(r'\s+', ' ', ·)`. -/
def collapseWs (l : List Char) : List Char := collapseWsAux false l

/-- Contiguous-substring test, Python's `needle in haystack` on strings.
`[] ⊆ l` holds, as in Python. -/
def containsSub (needle : List Char) : List Char → Bool
  | [] => needle.isEmpty
  | c :: rest => needle.isPrefixOf (c :: rest) || containsSub needle rest

/-- Longest proper head of `l` before the first occurrence of `sep`; all of
`l` when `sep` does not occur.  This is Python's `text.split(sep)[0]`. -/
def takeUntilSub (sep : List Char) : List Char → List Char
  | [] => []
  | c :: rest =>
    if sep.isPrefixOf (c :: rest) then [] else c :: takeUntilSub sep rest

/-- Splitter producing the (possibly empty) segments of `l` between
characters satisfying `p`; always returns at least one segment, like
`re.split`. -/
def splitOnPred (p : Char → Bool) : List Char → List (List Char)
  | [] => [[]]
  | c :: rest =>
    if p c then [] :: splitOnPred p rest
    else
      match splitOnPred p rest with
      | [] => [[c]]
      | seg :: more => (c :: seg) :: more

/-- Python `str.split()` with no argument: words separated by whitespace
runs, no empty words. -/
def pyWordsChars (l : List Char) : List (List Char) :=
  (splitOnPred pyIsSpace l).filter (fun w => ¬w.isEmpty)

/-- Decimal value of a digit run. -/
def natOfDigits (l : List Char) : ℕ :=
  l.foldl (fun acc c => acc * 10 + (c.toNat - '0'.toNat)) 0

/-- Maximal decimal digit runs of `l`, in order: `re.findall(r'\d+', ·)`
(ASCII digits). -/
def digitRuns (l : List Char) : List (List Char) :=
  (splitOnPred (fun c => ¬c.isDigit) l).filter (fun w => ¬w.isEmpty)

/-- Python `int(str)` on a tag value: optional surrounding whitespace,
optional sign, then a nonempty digit run (digit-group underscores are not
modelled; no tag in the claims uses them). -/
def pyIntParse (s : String) : Option ℤ :=
  let core : List Char → Option ℕ := fun ds =>
    if ds ≠ [] ∧ ds.all Char.isDigit then some (natOfDigits ds) else none
  match pyStripChars s.toList with
  | '+' :: ds => (core ds).map (fun n => (n : ℤ))
  | '-' :: ds => (core ds).map (fun n => -(n : ℤ))
  | ds => (core ds).map (fun n => (n : ℤ))

/-- ASCII `str.lower()`. -/
def lowerStr (s : String) : String := String.mk (s.toList.map Char.toLower)

/-- Python `str.endswith` / a `*<suf>` glob on a file name. -/
def strEndsWith (s suf : String) : Bool := suf.toList.isSuffixOf s.toList

/-- Final path component (the part after the last `/`). -/
def fileNameOf (p : String) : String :=
  String.mk ((p.toList.reverse.takeWhile (fun c => c ≠ '/')).reverse)

/-- `pathlib.Path(...).stem`: final component without its last suffix; a
leading dot does not start a suffix. -/
def pyStem (p : String) : String :=
  let name := (fileNameOf p).toList
  match name with
  | [] => ""
  | c0 :: rest =>
    if rest.contains '.' then
      String.mk (c0 :: (((rest.reverse.dropWhile (fun c => c ≠ '.')).drop 1).reverse))
    else String.mk (c0 :: rest)

/-- Code-point lexicographic `≤` on char lists (Python string comparison,
used as a sort key). -/
def charListLe : List Char → List Char → Bool
  | [], _ => true
  | _ :: _, [] => false
  | a :: as, b :: bs =>
    if a.toNat < b.toNat then true else if b.toNat < a.toNat then false else charListLe as bs

/-! ### Exact model of IEEE binary64 arithmetic

Python floats are IEEE binary64.  All float values arising in the embedded
code are tiny (at most a few days in milliseconds), so overflow and
subnormals never occur and each operation is exact-rational evaluation
followed by rounding to 53 significant bits, to nearest, ties to even. -/

/-- Floor of the base-2 logarithm of the positive fraction `n / d`. -/
def qlog2Core (n d : ℕ) : ℤ :=
  if d * 2 ^ Nat.log 2 n ≤ n * 2 ^ Nat.log 2 d then (Nat.log 2 n : ℤ) - Nat.log 2 d
  else (Nat.log 2 n : ℤ) - Nat.log 2 d - 1

/-- Floor of the base-2 logarithm of a positive rational. -/
def qlog2 (q : ℚ) : ℤ := qlog2Core q.num.toNat q.den

/-- Round a positive rational to the binary64 grid (53-bit significand,
round to nearest, ties to even).  Non-positive arguments only ever occur as
exact `0` in the embedded code. -/
def fl (q : ℚ) : ℚ :=
  if q ≤ 0 then 0
  else
    let s : ℤ := qlog2 q - 52
    let q' : ℚ := q / 2 ^ s
    let m : ℤ := ⌊q'⌋
    let r : ℚ := q' - (m : ℚ)
    let m' : ℤ :=
      if 1/2 < r then m + 1 else if r = 1/2 ∧ m % 2 = 1 then m + 1 else m
    (m' : ℚ) * 2 ^ s

/-- Python `int()` on the nonnegative floats occurring here: truncation
toward zero, i.e. the floor. -/
def pyInt (q : ℚ) : ℤ := ⌊q⌋

/-- Python `round()` on a float: nearest integer, ties to even. -/
def pyRound (q : ℚ) : ℤ :=
  let m : ℤ := ⌊q⌋
  let r : ℚ := q - (m : ℚ)
  if 1/2 < r then m + 1 else if r = 1/2 ∧ m % 2 = 1 then m + 1 else m

/-- The binary64 value of the Python literal `0.6` (`Util.py:1325`). -/
def c0p6 : ℚ := 5404319552844595 / 2 ^ 53

/-- The binary64 value of the Python literal `0.4` (`Util.py:1325`). -/
def c0p4 : ℚ := 3602879701896397 / 2 ^ 53

/-! ### `Util.normalizeForComparison` and `Util.calculateMatchConfidence` -/

/-- Python `\w` (ASCII model): alphanumeric or underscore. -/
def isWordChar (c : Char) : Bool := c.isAlphanum || c = '_'

/-- `Util.normalizeForComparison` (`Util.py:1248-1261`): lowercase, cut at
the first subtitle separator (`': '`, `' - '`, `' – '`, applied in that
order), replace every non-word non-space character by a space, collapse
whitespace, strip. -/
def normalizeForComparison (text : String) : String :=
  if text = "" then ""
  else
    let t0 := text.toList.map Char.toLower
    let t1 := takeUntilSub (": ".toList) t0
    let t2 := takeUntilSub (" - ".toList) t1
    let t3 := takeUntilSub (" – ".toList) t2
    let t4 := t3.map (fun c => if isWordChar c || pyIsSpace c then c else ' ')
    String.mk (pyStripChars (collapseWs t4))

/-- Words of a normalized string, Python `text.split()`. -/
def wordsOf (s : String) : List String := (pyWordsChars s.toList).map String.mk

/-- `len(set(xs) & set(ys))`. -/
def setInterCard (xs ys : List String) : ℕ :=
  (xs.dedup.filter (fun w => ys.contains w)).length

/-- `len(set(xs) | set(ys))`. -/
def setUnionCard (xs ys : List String) : ℕ := ((xs ++ ys).dedup).length

/-- `int((overlap / total) * 100) if total > 0 else 0` over the word sets,
with the two float operations (true division, multiplication by `100`)
rounded on the binary64 grid. -/
def wordOverlapScore (xs ys : List String) : ℤ :=
  let o := setInterCard xs ys
  let tot := setUnionCard xs ys
  if 0 < tot then pyInt (fl (fl ((o : ℚ) / (tot : ℚ)) * 100)) else 0

/-- Title-score block of `Util.calculateMatchConfidence`
(`Util.py:1274-1290`), applied to the two already-normalized titles:
equality 100, substring containment either way 85, otherwise word-set
overlap ratio. -/
def titleScore (ft at_ : String) : ℤ :=
  if ft ≠ "" ∧ at_ ≠ "" then
    if ft = at_ then 100
    else if containsSub ft.toList at_.toList || containsSub at_.toList ft.toList then 85
    else
      let fw := wordsOf ft
      let aw := wordsOf at_
      if fw ≠ [] ∧ aw ≠ [] then wordOverlapScore fw aw else 0
  else 0

/-- Author-score block of `Util.calculateMatchConfidence`
(`Util.py:1292-1314`), applied to the two already-normalized authors:
equality 100, substring containment 90, equal last word 70, otherwise
word-set overlap ratio.  (`split()[-1]` is modelled with a `""` default; in
the source it is only reached on normalized nonempty text, whose word list
is never empty.) -/
def authorScore (fa aa : String) : ℤ :=
  if fa ≠ "" ∧ aa ≠ "" then
    if fa = aa then 100
    else if containsSub fa.toList aa.toList || containsSub aa.toList fa.toList then 90
    else
      let flast := ((wordsOf fa).getLast?).getD ""
      let alast := ((wordsOf aa).getLast?).getD ""
      if flast ≠ "" ∧ alast ≠ "" ∧ flast = alast then 70
      else
        let fw := wordsOf fa
        let aw := wordsOf aa
        if fw ≠ [] ∧ aw ≠ [] then wordOverlapScore fw aw else 0
  else 0

/-- `Util.calculateMatchConfidence` (`Util.py:1264-1328`).  Returns the
combined confidence score and the details string.  The combination
`int(titleScore * 0.6 + authorScore * 0.4)` is computed in binary64 and
truncated by `int()`. -/
def calculateMatchConfidence (fileAuthor fileTitle audibleAuthor audibleTitle : String) :
    ℤ × String :=
  let fa := normalizeForComparison fileAuthor
  let ft := normalizeForComparison fileTitle
  let aa := normalizeForComparison audibleAuthor
  let at_ := normalizeForComparison audibleTitle
  let t := titleScore ft at_
  let a := authorScore fa aa
  let combined : ℤ :=
    if fa = "" ∧ ft = "" then 0
    else if fa = "" then t
    else if ft = "" then a
    else pyInt (fl (fl ((t : ℚ) * c0p6) + fl ((a : ℚ) * c0p4)))
  (combined, "title:" ++ toString t ++ "% author:" ++ toString a ++ "%")

/-! ### `Util.cleanTitleForPath` and `BookStatus.checkOutputExists` -/

/-- `Util.cleanTitleForPath` (`Util.py:243-259`): drop the characters
`<>"|?:*` and tab/newline/carriage return, collapse whitespace, strip. -/
def cleanTitleForPath (title : String) : String :=
  if title = "" then title
  else
    let l := title.toList.filter
      (fun c => ¬(c ∈ ['<', '>', '"', '|', '?', ':', '*', '\t', '\n', '\r']))
    String.mk (pyStripChars (collapseWs l))

/-- Per-extension search of `BookStatus.checkOutputExists`
(`BookStatus.py:261-270`): for each extension, first the exact
sanitized-title file name, then the first `*<ext>` glob hit in directory
order. -/
def searchExts (cleanTitle : Option String) (files : List String) :
    List String → Option String
  | [] => none
  | e :: rest =>
    let exactHit : Option String :=
      match cleanTitle with
      | some ct => if ct ≠ "" ∧ (ct ++ e) ∈ files then some (ct ++ e) else none
      | none => none
    match exactHit with
    | some f => some f
    | none =>
      match files.find? (fun f => strEndsWith f e) with
      | some f => some f
      | none => searchExts cleanTitle files rest

/-- `BookStatus.checkOutputExists` (`BookStatus.py:233-272`).  The folder is
given as an existence flag plus its file names in glob iteration order. -/
def checkOutputExists (folderExists : Bool) (files : List String) (title : String)
    (requireM4B : Bool) : Option String :=
  if folderExists = false then none
  else
    let cleanTitle : Option String :=
      if title ≠ "" then some (cleanTitleForPath title) else none
    let exts := if requireM4B then [".m4b"]
      else [".m4b", ".mp3", ".m4a", ".flac", ".wav"]
    searchExts cleanTitle files exts

/-- Behaviour claimed by the specification for `checkOutputExists`, written
from the claim's words: find the first extension in the priority order
(`.m4b` only, under `requireChapteredOnly`) for which the folder holds any
match, then return the exact sanitized-title file if present, else the
first file with that extension. -/
def checkOutputExistsSpec (folderExists : Bool) (files : List String) (title : String)
    (requireM4B : Bool) : Option String :=
  if folderExists = false then none
  else
    let exts := if requireM4B then [".m4b"]
      else [".m4b", ".mp3", ".m4a", ".flac", ".wav"]
    let sanitized : Option String :=
      if title ≠ "" then some (cleanTitleForPath title) else none
    match exts.find? (fun e => files.any (fun f => strEndsWith f e)) with
    | none => none
    | some e =>
      match sanitized with
      | some ct =>
        if ct ≠ "" ∧ (ct ++ e) ∈ files then some (ct ++ e)
        else files.find? (fun f => strEndsWith f e)
      | none => files.find? (fun f => strEndsWith f e)

/-! ### `Util.cleanAuthorForPath` (`Util.py:178-241`)

The three regexes of the source (credit lead-ins, credit tails, credential
tails) are hand-compiled to matchers on `List Char`.  Matching is done on a
lowercased copy (the regexes run with `re.IGNORECASE`), while the string
that survives keeps its original characters, exactly as `re.sub` does. -/

/-- Lead-in words of `credit_prefixes` (`Util.py:192`). -/
def creditLeadWords : List (List Char) :=
  ["foreword", "forward", "introduction", "preface", "afterword", "epilogue",
   "read", "narrated", "translated", "edited"].map String.toList

/-- Matches `\s+by\s+` immediately after a lead-in word. -/
def afterWordBy (rest : List Char) : Bool :=
  match rest with
  | [] => false
  | c :: r =>
    pyIsSpace c &&
      (match r.dropWhile pyIsSpace with
       | 'b' :: 'y' :: r2 =>
         match r2 with
         | d :: _ => pyIsSpace d
         | [] => false
       | _ => false)

/-- `re.match(credit_prefixes, seg, re.IGNORECASE)`: the segment starts with
a credit lead-in such as `foreword by `. -/
def isCreditLead (seg : List Char) : Bool :=
  let ls := seg.map Char.toLower
  creditLeadWords.any (fun w => w.isPrefixOf ls && afterWordBy (ls.drop w.length))

/-- Role words of `credit_suffixes` (`Util.py:194`). -/
def creditTailRoles : List (List Char) :=
  ["foreword", "forward", "contributor", "editor", "introduction", "afterword",
   "translator", "narrator", "preface", "epilogue"].map String.toList

/-- Role words of `credit_roles` (`Util.py:221`); unlike `credit_suffixes`
this list has no `epilogue`. -/
def creditSubRoles : List (List Char) :=
  ["foreword", "forward", "contributor", "editor", "introduction", "afterword",
   "translator", "narrator", "preface"].map String.toList

/-- `re.search(r'\s+-\s*(ROLE)\s*$', seg, re.IGNORECASE)` for the roles of
`credit_suffixes`: reading from the end, optional whitespace, a role word,
optional whitespace, a dash, and at least one whitespace before it. -/
def hasCreditTail (seg : List Char) : Bool :=
  let r1 := ((seg.map Char.toLower).reverse).dropWhile pyIsSpace
  creditTailRoles.any (fun role =>
    role.reverse.isPrefixOf r1 &&
      (match (r1.drop role.length).dropWhile pyIsSpace with
       | '-' :: r4 =>
         match r4 with
         | d :: _ => pyIsSpace d
         | [] => false
       | _ => false))

/-- Length of the suffix removed by
`re.sub(r'\s+-\s+(ROLE)\s*$', '', ·, re.IGNORECASE)` on the lowered copy
`ls`, when it matches: trailing whitespace, the role, at least one
whitespace, the dash, and the whole whitespace run before the dash (the
leftmost match start). -/
def creditTailLen (ls : List Char) : Option ℕ :=
  let r := ls.reverse
  let w0 := (r.takeWhile pyIsSpace).length
  let r1 := r.drop w0
  creditSubRoles.findSome? (fun role =>
    if role.reverse.isPrefixOf r1 then
      let r2 := r1.drop role.length
      let w1 := (r2.takeWhile pyIsSpace).length
      if 1 ≤ w1 then
        match r2.drop w1 with
        | '-' :: r4 =>
          let w2 := (r4.takeWhile pyIsSpace).length
          if 1 ≤ w2 then some (w0 + role.length + w1 + 1 + w2) else none
        | _ => none
      else none
    else none)

/-- The single credit-role strip at `Util.py:222`. -/
def stripCreditTail (seg : List Char) : List Char :=
  match creditTailLen (seg.map Char.toLower) with
  | some n => seg.take (seg.length - n)
  | none => seg

/-- One credential alternative, as chunks of lowercase letters each followed
by an optional dot (`M\.?D\.?` is `[(md-chunks)]`, `Jr\.?` allows a dot only
after `r`, the Roman numerals allow none). -/
def credAlts : List (List (List Char × Bool)) :=
  [ [(['m'], true), (['d'], true)],                                  -- M.D.
    [(['p', 'h'], true), (['d'], true)],                             -- Ph.D.
    [(['d'], true), (['o'], true)],                                  -- D.O.
    [(['j'], true), (['d'], true)],                                  -- J.D.
    [(['e', 'd'], true), (['d'], true)],                             -- Ed.D.
    [(['p', 's', 'y'], true), (['d'], true)],                        -- Psy.D.
    [(['d'], true), (['m', 'i', 'n'], true)],                        -- D.Min.
    [(['d'], true), (['d'], true), (['s'], true)],                   -- D.D.S.
    [(['r'], true), (['n'], true)],                                  -- R.N.
    [(['l'], true), (['m'], true), (['f'], true), (['t'], true)],    -- L.M.F.T.
    [(['l'], true), (['c'], true), (['s'], true), (['w'], true)],    -- L.C.S.W.
    [(['m'], true), (['f'], true), (['t'], true)],                   -- M.F.T.
    [(['l'], true), (['p'], true), (['c'], true)],                   -- L.P.C.
    [(['l'], true), (['m'], true), (['h'], true), (['c'], true)],    -- L.M.H.C.
    [(['l'], true), (['p'], true), (['c'], true), (['c'], true)],    -- L.P.C.C.
    [(['m'], true), (['a'], true)],                                  -- M.A.
    [(['m'], true), (['s'], true)],                                  -- M.S.
    [(['m'], true), (['b'], true), (['a'], true)],                   -- M.B.A.
    [(['m'], true), (['s'], true), (['w'], true)],                   -- M.S.W.
    [(['b'], true), (['a'], true)],                                  -- B.A.
    [(['b'], true), (['s'], true)],                                  -- B.S.
    [(['c'], true), (['p'], true), (['a'], true)],                   -- C.P.A.
    [(['j', 'r'], true)],                                            -- Jr.
    [(['s', 'r'], true)],                                            -- Sr.
    [(['i', 'i', 'i'], false)],                                      -- III
    [(['i', 'i'], false)],                                           -- II
    [(['i', 'v'], false)] ]                                          -- IV

/-- Match one credential alternative against a reversed lowered tail.  The
chunk list comes in reverse order; each chunk is an optional dot (consumed
greedily, which is safe because every following expected character is a
letter) followed by the chunk's letters reversed.  Returns the number of
characters consumed. -/
def matchRevCred : List (List Char × Bool) → List Char → Option ℕ
  | [], _ => some 0
  | (seg, dotAllowed) :: more, r =>
    let step : ℕ × List Char :=
      match r with
      | '.' :: rest => if dotAllowed then (1, rest) else (0, r)
      | _ => (0, r)
    if seg.reverse.isPrefixOf step.2 then
      match matchRevCred more (step.2.drop seg.length) with
      | some k => some (step.1 + seg.length + k)
      | none => none
    else none

/-- Length of the suffix removed by one application of
`re.sub(credentials, '', ·, re.IGNORECASE)` (`Util.py:227,232`), pattern
`,?\s*(ALT)\s*$`: trailing whitespace, one alternative, the whitespace run
before it, and an optional comma (leftmost match start). -/
def credTailLen (ls : List Char) : Option ℕ :=
  let r := ls.reverse
  let w0 := (r.takeWhile pyIsSpace).length
  let r1 := r.drop w0
  credAlts.findSome? (fun alt =>
    match matchRevCred alt.reverse r1 with
    | some k =>
      let r2 := r1.drop k
      let w1 := (r2.takeWhile pyIsSpace).length
      let comma : ℕ := match r2.drop w1 with | ',' :: _ => 1 | _ => 0
      some (w0 + k + w1 + comma)
    | none => none)

/-- One iteration of the credential-stripping loop body
(`Util.py:231-232`): `cleaned = re.sub(credentials, '', cleaned).strip()`.
The final `.strip()` applies whether or not the pattern matched. -/
def stripCredsOnce (seg : List Char) : List Char :=
  match credTailLen (seg.map Char.toLower) with
  | some n => pyStripChars (seg.take (seg.length - n))
  | none => pyStripChars seg

/-- The `while prev_cleaned != cleaned` loop (`Util.py:229-232`), run to a
fixpoint.  Each change strictly shortens the string, so `length + 1` fuel
reaches the fixpoint the Python loop reaches. -/
def stripCredsLoop : ℕ → List Char → List Char
  | 0, l => l
  | fuel + 1, l =>
    let l' := stripCredsOnce l
    if l' = l then l else stripCredsLoop fuel l'

/-- `Util.cleanAuthorForPath` (`Util.py:178-241`).  `re.split` with
whitespace around the separator chars is modelled as a plain split on
`,;/&`; every use of a segment strips it first, so the two are
observationally equal. -/
def cleanAuthorForPath (author : String) : String :=
  if author = "" then author
  else
    let segs := splitOnPred (fun c => c ∈ [',', ';', '/', '&']) author.toList
    let chosen : Option (List Char) := segs.findSome? (fun seg0 =>
      let seg := pyStripChars seg0
      if isCreditLead seg then none
      else if hasCreditTail seg then none
      else some seg)
    let cleaned0 : List Char :=
      match chosen with
      | some s => s
      | none =>
        match segs with
        | s :: _ => pyStripChars s
        | [] => []
    if cleaned0 = [] then author
    else
      let c1 := stripCreditTail cleaned0
      let c2 := stripCredsLoop (c1.length + 1) c1
      let c3 := c2.filter (fun c => ¬(c ∈ ['<', '>', '"', '|', '?', ':', '*']))
      String.mk (pyStripChars (collapseWs c3))

/-! ### The retry loop of `Util.GETpage` (`Util.py:722-761`)

On a cache miss, `GETpage` loops `requests.get`; the `except` handler reads

    if timer == 2: time.sleep(timer); timer *= 1.5
    elif timer >= 10: return None

The state after `n` consecutive raising attempts is modelled below.  The
only multiplication ever executed is `2 * 1.5 = 3.0`, which is exact in
binary64, so no rounding is needed. -/

/-- State of the `GETpage` retry loop: still retrying with the current
`timer`, or aborted via the `timer >= 10` branch (`return None`). -/
inductive RetryState where
  | retrying (timer : ℚ) : RetryState
  | aborted : RetryState
deriving DecidableEq

/-- The `except` handler of the loop, executed once per raising attempt. -/
def retryStep (timer : ℚ) : RetryState :=
  if timer = 2 then .retrying (timer * (3 / 2))
  else if 10 ≤ timer then .aborted
  else .retrying timer

/-- Loop state after `n` consecutive raising attempts, starting from
`timer`. -/
def retryLoop : ℕ → ℚ → RetryState
  | 0, t => .retrying t
  | n + 1, t =>
    match retryStep t with
    | .aborted => .aborted
    | .retrying t' => retryLoop n t'

/-! ### The skip/fail ledgers of `BookStatus.py`

Paths are abstract strings; `Path.resolve()` is the identity on them.  The
modelled effects are the ledger lists `_skips` / `_fails` and the
`_originalPaths` map; logging, marker files and file moves are I/O with no
effect on the ledgers. -/

/-- The module-level mutable state of `BookStatus.py`. -/
structure LedgerState where
  skips : List String
  fails : List String
  originalPaths : List (String × String)
deriving DecidableEq

/-- `_originalPaths.get(item, item)` (`BookStatus.py:336,371`). -/
def origOf (s : LedgerState) (item : String) : String :=
  (s.originalPaths.lookup item).getD item

/-- `BookStatus.skipBook` (`BookStatus.py:317-353`): de-duplicates on the
raw `item` against `_skips`, then appends the original path. -/
def skipBook (s : LedgerState) (item : String) : LedgerState :=
  if item ∈ s.skips then s
  else { s with skips := s.skips ++ [origOf s item] }

/-- `BookStatus.failBook` (`BookStatus.py:355-393`): de-duplicates on the
original path against `_fails`, then appends it. -/
def failBook (s : LedgerState) (item : String) : LedgerState :=
  let orig := origOf s item
  if orig ∈ s.fails then s
  else { s with fails := s.fails ++ [orig] }

/-- `BookStatus.setOriginalPath` (`BookStatus.py:49-60`): dictionary
assignment `_originalPaths[current] = original`. -/
def setOriginalPath (s : LedgerState) (cur orig : String) : LedgerState :=
  { s with originalPaths := (cur, orig) :: s.originalPaths.filter (fun p => p.1 ≠ cur) }

/-- One ledger-affecting call into `BookStatus`. -/
inductive LedgerOp where
  | skip (item : String) : LedgerOp
  | fail (item : String) : LedgerOp
  | setOrig (cur orig : String) : LedgerOp
deriving DecidableEq

/-- Apply one ledger operation. -/
def applyLedgerOp (s : LedgerState) : LedgerOp → LedgerState
  | .skip item => skipBook s item
  | .fail item => failBook s item
  | .setOrig cur orig => setOriginalPath s cur orig

/-- Ledger state after a run issuing the given calls, starting from the
empty module state. -/
def runLedgerOps (ops : List LedgerOp) : LedgerState :=
  ops.foldl applyLedgerOp ⟨[], [], []⟩

/-! ### `FileMerger.createTempFiles` (`FileMerger.py:720-754`)

A piece is `None` (skipped with `continue`) or a pair of the mutagen
`filename` and `info.length` (duration in seconds, a binary64 float).  The
chapter manifest is modelled structurally: the header line, then one block
per piece holding the values written as `TIMEBASE=`, `START=`, `END=` and
`title=Chapter <n>`.  `runningTime += p.info.length * 1000` is binary64
arithmetic: one rounded multiplication and one rounded addition. -/

/-- One `[CHAPTER]` block of the manifest. -/
structure ChapterBlock where
  timebase : String
  start : ℚ
  stop : ℚ
  title : ℕ
deriving DecidableEq

/-- The chapter-metadata manifest. -/
structure ChapterManifest where
  header : String
  blocks : List ChapterBlock
deriving DecidableEq

/-- The loop of `createTempFiles`, carrying `runningTime` and `chapCount`. -/
def chapterBlocksAux : ℚ → ℕ → List (Option (String × ℚ)) → List ChapterBlock
  | _, _, [] => []
  | running, chapCount, none :: rest => chapterBlocksAux running chapCount rest
  | running, chapCount, some (_, len) :: rest =>
    let fin := fl (running + fl (len * 1000))
    { timebase := "1/1000", start := running, stop := fin, title := chapCount } ::
      chapterBlocksAux fin (chapCount + 1) rest

/-- Escaping of apostrophes for the ffmpeg concat list
(`FileMerger.py:738`): `'` becomes `'\''`. -/
def escapeApos (s : String) : String :=
  String.mk (s.toList.flatMap (fun c => if c = '\'' then "'\\''".toList else [c]))

/-- The concat-list lines written by `createTempFiles`. -/
def concatLines (pieces : List (Option (String × ℚ))) : List String :=
  pieces.filterMap (fun p =>
    match p with
    | none => none
    | some (name, _) => some ("file '" ++ escapeApos name ++ "'"))

/-- `FileMerger.createTempFiles`: the two temp files it writes, as the
concat lines and the structured chapter manifest. -/
def createTempFiles (pieces : List (Option (String × ℚ))) :
    List String × ChapterManifest :=
  (concatLines pieces, { header := ";FFMETADATA1", blocks := chapterBlocksAux 0 1 pieces })

/-- Millisecond offset accumulated in binary64 over a list of durations,
starting from `init`: the value of `runningTime` after those chapters. -/
def floatCumFrom (init : ℚ) (ds : List ℚ) : ℚ :=
  ds.foldl (fun acc d => fl (acc + fl (d * 1000))) init

/-- Millisecond offset accumulated in binary64 over the first chapters'
durations: the value of `runningTime` after them. -/
def floatCumMs (ds : List ℚ) : ℚ := floatCumFrom 0 ds

/-! ### `Util.getAudioFiles` (`Util.py:2104-2143`)

The folder is given as the list of entry paths the chosen `glob`/`rglob`
scan would visit, in scan order (`recurse` only changes that entry set).
The four patterns filter on the final path component. -/

/-- Pattern `*.m4*`: the name contains `.m4`. -/
def globM4 (p : String) : Bool := containsSub ".m4".toList (fileNameOf p).toList

/-- Pattern `*.mp*`: the name contains `.mp`. -/
def globMp (p : String) : Bool := containsSub ".mp".toList (fileNameOf p).toList

/-- Pattern `*.flac`: the name ends with `.flac`. -/
def globFlac (p : String) : Bool := strEndsWith (fileNameOf p) ".flac"

/-- Pattern `*.wav`: the name ends with `.wav`. -/
def globWav (p : String) : Bool := strEndsWith (fileNameOf p) ".wav"

/-- The sort key comparison `str(f).lower()` of `Util.py:2131`. -/
def pathKeyLe (a b : String) : Bool :=
  charListLe (a.toList.map Char.toLower) (b.toList.map Char.toLower)

/-- Python slice `files[:batch]`; a negative bound counts from the end. -/
def pySliceTo (l : List String) (b : ℤ) : List String :=
  if 0 ≤ b then l.take b.toNat else l.take (l.length - (-b).toNat)

/-- `Util.getAudioFiles`: returns `inl (-1)` (the integer sentinel) when
nothing matches, otherwise the sorted, offset, batch-limited list. -/
def getAudioFiles (entries : List String) (batch : ℤ) (offset : ℤ) :
    ℤ ⊕ List String :=
  let files := entries.filter globM4 ++ entries.filter globMp ++
    entries.filter globFlac ++ entries.filter globWav
  let sortedFiles := files.mergeSort pathKeyLe
  if sortedFiles.length = 0 then Sum.inl (-1)
  else
    let files2 := if 0 < offset then sortedFiles.drop offset.toNat else sortedFiles
    if batch = -1 ∨ (files2.length : ℤ) ≤ batch then Sum.inr files2
    else Sum.inr (pySliceTo files2 batch)

/-- The matched entries before sorting, named for the theorems. -/
def audioMatches (entries : List String) : List String :=
  entries.filter globM4 ++ entries.filter globMp ++
    entries.filter globFlac ++ entries.filter globWav

/-- `files[offset:] if offset > 0 else files` (`Util.py:2137-2138`). -/
def pyOffsetDrop (l : List String) (offset : ℤ) : List String :=
  if 0 < offset then l.drop offset.toNat else l

/-- The batch truncation of `Util.py:2140-2143`. -/
def pyBatchLimit (l : List String) (batch : ℤ) : List String :=
  if batch = -1 ∨ (l.length : ℤ) ≤ batch then l else pySliceTo l batch

/-! ### File ordering (`FileMerger.py:21-163`, `269-310`, `672-718`)

A `Track` is the mutagen easy-tag view of one audio file: its `filename`
and the raw tag value lists for `tracknumber` and `discnumber` (a missing
key is `none`, raising `KeyError` on access; `[0]` on an empty list raises
`IndexError`; a malformed `int()` argument raises `ValueError`).  Reading
the files themselves (`mutagen.File`) is I/O and is not modelled: the
functions take the already-read tracks.  An uncaught Python exception is an
`Except.error`. -/

/-- Mutagen easy-tag view of one audio file. -/
structure Track where
  filename : String
  tracknumber : Option (List String)
  discnumber : Option (List String)
deriving DecidableEq

/-- An exception escaping the modelled fragment. -/
inductive PyExc where
  | indexError : PyExc
deriving DecidableEq

/-- `int(tag[0])`, with `KeyError` / `IndexError` / `ValueError` merged to
`none` (call sites catch all three). -/
def parseIntTag (tag : Option (List String)) : Option ℤ :=
  match tag with
  | none => none
  | some [] => none
  | some (s :: _) => pyIntParse s

/-- `int(tag[0].split('/')[0])`, with the same three errors merged to
`none`. -/
def parseTrackNumTag (tag : Option (List String)) : Option ℤ :=
  match tag with
  | none => none
  | some [] => none
  | some (s :: _) => pyIntParse (String.mk (s.toList.takeWhile (fun c => c ≠ '/')))

/-- Python list indexing with negative wrap-around: `some` of the physical
position, or `none` for `IndexError`. -/
def pyIndex (size : ℕ) (i : ℤ) : Option ℕ :=
  if 0 ≤ i ∧ i < (size : ℤ) then some i.toNat
  else if -(size : ℤ) ≤ i ∧ i < 0 then some ((size : ℤ) + i).toNat
  else none

/-- In-place update of one list position. -/
def listSetAt : List α → ℕ → α → List α
  | [], _, _ => []
  | _ :: rest, 0, v => v :: rest
  | c :: rest, n + 1, v => c :: listSetAt rest n v

/-- The single-disc loop of `orderByTrackNumber` (`FileMerger.py:90-103`).
`none` bundles every way the loop ends with `return []`: a missing
`tracknumber` tag, a raised (and caught) `IndexError`/`ValueError`, or an
already-occupied slot (overlapping track numbers). -/
def fillSingle : List Track → List (Option Track) → Option (List (Option Track))
  | [], chapters => some chapters
  | t :: rest, chapters =>
    match t.tracknumber with
    | none => none
    | some vals =>
      match vals with
      | [] => none
      | s :: _ =>
        match pyIntParse (String.mk (s.toList.takeWhile (fun c => c ≠ '/'))) with
        | none => none
        | some n =>
          match pyIndex chapters.length n with
          | none => none
          | some k =>
            if (chapters.getD k none).isSome then none
            else fillSingle rest (listSetAt chapters k (some t))

/-- One pass of the multi-disc loop (`FileMerger.py:77-84`): place every
track of the given disc at `trackNumber + offset`, counting placements. -/
def passDisk (disk : ℤ) (offset : ℕ) :
    List Track → ℕ → List (Option Track) → Option (ℕ × List (Option Track))
  | [], done, chapters => some (done, chapters)
  | t :: rest, done, chapters =>
    match parseIntTag t.discnumber with
    | none => none
    | some dn =>
      match parseTrackNumTag t.tracknumber with
      | none => none
      | some tn =>
        if dn = disk then
          match pyIndex chapters.length (tn + (offset : ℤ)) with
          | none => none
          | some k => passDisk disk offset rest (done + 1) (listSetAt chapters k (some t))
        else passDisk disk offset rest done chapters

/-- The `while tracksDone < len(tracks) and disk <= maxDisk` loop
(`FileMerger.py:74-85`); returns the final `disk` value and the slots. -/
def multiLoop (tracks : List Track) :
    ℕ → ℕ → ℕ → List (Option Track) → Option (ℕ × List (Option Track))
  | 0, disk, _, chapters => some (disk, chapters)
  | fuel + 1, disk, done, chapters =>
    if done < tracks.length ∧ disk ≤ 10 then
      match passDisk (disk : ℤ) done tracks done chapters with
      | none => none
      | some (done', chapters') => multiLoop tracks fuel (disk + 1) done' chapters'
    else some (disk, chapters)

/-- `FileMerger.orderByTrackNumber` (`FileMerger.py:64-115`): fill the
`len(tracks) + 1` slot list, then drop a leading and a trailing `None`
slot; every caught exception yields `[]`. -/
def orderByTrackNumber (tracks : List Track) (hasMultipleDisks : Bool) :
    List (Option Track) :=
  let chapters0 : List (Option Track) := List.replicate (tracks.length + 1) none
  let filled : Option (List (Option Track)) :=
    if hasMultipleDisks then
      match multiLoop tracks 12 1 0 chapters0 with
      | none => none
      | some (disk, chapters) => if 10 < disk then none else some chapters
    else fillSingle tracks chapters0
  match filled with
  | none => []
  | some chapters =>
    let c1 := if chapters.head? = some none then chapters.tail else chapters
    match c1.getLast? with
    | none => []
    | some lastSlot => if lastSlot = none then c1.dropLast else c1

/-- `FileMerger.findTitleNum` (`FileMerger.py:21-34`). -/
def findTitleNum (title : String) (whichNum : ℕ) : ℤ :=
  let up := title.toList.map Char.toUpper
  match (digitRuns up).get? whichNum with
  | some run => (natOfDigits run : ℤ)
  | none =>
    if containsSub "INTRO".toList up || containsSub "PROLOGUE".toList up then 0
    else if containsSub "OUTRO".toList up || containsSub "EPILOGUE".toList up ||
        containsSub "CREDITS".toList up then 999
    else -1

/-- Scanner for `re.findall(r'(\d+)([A-Z])?', ·)`: digit runs with an
optional immediately following uppercase letter; the accumulator holds the
value of the digit run in progress. -/
def alnumScanAux : Option ℕ → List Char → List (ℕ × String)
  | none, [] => []
  | some v, [] => [(v, "")]
  | none, c :: rest =>
    if c.isDigit then alnumScanAux (some (c.toNat - '0'.toNat)) rest
    else alnumScanAux none rest
  | some v, c :: rest =>
    if c.isDigit then alnumScanAux (some (v * 10 + (c.toNat - '0'.toNat))) rest
    else if 'A' ≤ c ∧ c ≤ 'Z' then (v, String.mk [c]) :: alnumScanAux none rest
    else (v, "") :: alnumScanAux none rest

/-- `FileMerger.findAlphanumericKey` (`FileMerger.py:37-61`). -/
def findAlphanumericKey (title : String) (whichNum : ℕ) : Option (ℕ × String) :=
  let up := title.toList.map Char.toUpper
  match (alnumScanAux none up).get? whichNum with
  | some k => some k
  | none =>
    if containsSub "INTRO".toList up || containsSub "PROLOGUE".toList up then some (0, "")
    else if containsSub "OUTRO".toList up || containsSub "EPILOGUE".toList up ||
        containsSub "CREDITS".toList up then some (999, "ZZZ")
    else none

/-- Python `dict` assignment: replace in place or append. -/
def dictInsert [DecidableEq κ] (m : List (κ × ν)) (k : κ) (v : ν) : List (κ × ν) :=
  match m with
  | [] => [(k, v)]
  | (k', v') :: rest => if k' = k then (k', v) :: rest else (k', v') :: dictInsert rest k v

/-- Python `key in dict`. -/
def dictHasKey [DecidableEq κ] (m : List (κ × ν)) (k : κ) : Bool :=
  (List.lookup k m).isSome

/-- Integer `≤` as a `Bool` sort order. -/
def intLe (a b : ℤ) : Bool := decide (a ≤ b)

/-- Python tuple comparison on `(int, str)` keys. -/
def keyTupleLe (a b : ℕ × String) : Bool :=
  a.1 < b.1 || (a.1 = b.1 && charListLe a.2.toList b.2.toList)

/-- Track comparison by `Path(t.filename).name.lower()`
(`FileMerger.py:158`). -/
def nameLowerLe (a b : Track) : Bool :=
  charListLe ((fileNameOf a.filename).toList.map Char.toLower)
    ((fileNameOf b.filename).toList.map Char.toLower)

/-- The map-building `for` of the numeric loop (`FileMerger.py:132-140`).
The value `none` is the `"error"` sentinel of `trackMap = {999: "error"}`;
it is never extracted (its key `999` fails the `ordered[0]` check). -/
def buildNumericMap (whichNum : ℕ) :
    List Track → List (ℤ × Option Track) → List (ℤ × Option Track)
  | [], m => m
  | t :: rest, m =>
    let key := findTitleNum (pyStem t.filename) whichNum
    if dictHasKey m key ∧ key ≠ -1 then [(999, none)]
    else buildNumericMap whichNum rest (dictInsert m key (some t))

/-- The `while whichNum < maxNumericAttempts` loop (`FileMerger.py:131-153`).
`ok none` falls through to the alphabetical fallback; `ordered[0]` on an
empty key list (only possible for an empty track list) raises. -/
def numericSearch (tracks : List Track) :
    ℕ → ℕ → Except PyExc (Option (List (Option Track)))
  | 0, _ => .ok none
  | fuel + 1, whichNum =>
    let m := buildNumericMap whichNum tracks []
    if dictHasKey m (-1) then .ok none
    else
      match ((m.map Prod.fst).mergeSort intLe : List ℤ) with
      | [] => .error .indexError
      | k0 :: _ =>
        if k0 ≠ 0 ∧ k0 ≠ 1 then numericSearch tracks fuel (whichNum + 1)
        else .ok (some (((m.map Prod.fst).mergeSort intLe).map
          (fun k => (List.lookup k m).join)))

/-- The map-building `for` of `orderByTitleAlphanumeric`
(`FileMerger.py:282-292`); `none` covers both `allFound = False` exits
(missing key, or duplicate key which also empties the map). -/
def buildAlnumMap (whichNum : ℕ) :
    List Track → List ((ℕ × String) × Track) → Option (List ((ℕ × String) × Track))
  | [], m => some m
  | t :: rest, m =>
    match findAlphanumericKey (pyStem t.filename) whichNum with
    | none => none
    | some key =>
      if dictHasKey m key then none
      else buildAlnumMap whichNum rest (dictInsert m key t)

/-- The `while whichNum < maxAttempts` loop of `orderByTitleAlphanumeric`
(`FileMerger.py:278-310`). -/
def alnumSearch (tracks : List Track) : ℕ → ℕ → List (Option Track)
  | 0, _ => []
  | fuel + 1, whichNum =>
    match buildAlnumMap whichNum tracks [] with
    | none => alnumSearch tracks fuel (whichNum + 1)
    | some m =>
      if m = [] then alnumSearch tracks fuel (whichNum + 1)
      else
        match ((m.map Prod.fst).mergeSort keyTupleLe : List (ℕ × String)) with
        | [] => []
        | k0 :: _ =>
          if k0.1 ≠ 0 ∧ k0.1 ≠ 1 then alnumSearch tracks fuel (whichNum + 1)
          else ((m.map Prod.fst).mergeSort keyTupleLe).map (fun k => List.lookup k m)

/-- `FileMerger.orderByTitleAlphanumeric` (`FileMerger.py:269-310`). -/
def orderByTitleAlphanumeric (tracks : List Track) : List (Option Track) :=
  alnumSearch tracks 5 0

/-- `FileMerger.orderByTitle` (`FileMerger.py:118-163`): alphanumeric
ordering first, then the numeric loop, then a plain alphabetical sort of
the file names. -/
def orderByTitle (tracks : List Track) : Except PyExc (List (Option Track)) :=
  let alphaNum := orderByTitleAlphanumeric tracks
  if alphaNum ≠ [] then .ok alphaNum
  else
    match numericSearch tracks 5 0 with
    | .error e => .error e
    | .ok (some out) => .ok out
    | .ok none => .ok ((tracks.mergeSort nameLowerLe).map some)

/-- The `hasMultipleDisks` detection of `orderFiles`
(`FileMerger.py:695-699`): `KeyError` and `ValueError` are caught and
ignored; an `IndexError` from `[0]` on an empty tag list escapes. -/
def computeHasMultipleDisks : List Track → Bool → Except PyExc Bool
  | [], acc => .ok acc
  | t :: rest, acc =>
    match t.discnumber with
    | none => computeHasMultipleDisks rest acc
    | some [] => .error .indexError
    | some (s :: _) =>
      match pyIntParse s with
      | none => computeHasMultipleDisks rest acc
      | some d => computeHasMultipleDisks rest (acc || d ≠ 1)

/-- `FileMerger.orderFiles` (`FileMerger.py:672-718`), given the
already-read tracks.  The `failBook` calls on unreadable files and on a
double ordering failure are ledger/IO effects with no influence on the
returned ordering. -/
def orderFiles (tracks : List Track) : Except PyExc (List (Option Track)) :=
  match computeHasMultipleDisks tracks false with
  | .error e => .error e
  | .ok hasMulti =>
    let pieces := orderByTrackNumber tracks hasMulti
    if pieces.length = 0 then orderByTitle tracks
    else .ok pieces

/-! ### `Main.processBooks` (`Main.py:46-66`)

On a mode conflict the code runs `log.critical(...)` and `sys.exit()`.
`sys.exit()` with no argument raises `SystemExit(None)`; the `__main__`
wrapper re-raises it, and the process terminates with exit status `0`. -/

/-- Which batch routine a run dispatches to. -/
inductive RunMode where
  | recurseFetch : RunMode
  | recurseCombine : RunMode
  | recursePreserve : RunMode
  | singleLevel : RunMode
deriving DecidableEq

/-- Outcome of `processBooks`: either the logged mode-conflict exit with
the process exit status, or dispatch to a batch routine. -/
inductive ProcOutcome where
  | conflictExit (exitStatus : ℕ) : ProcOutcome
  | run (mode : RunMode) : ProcOutcome
deriving DecidableEq

/-- `Main.processBooks` mode dispatch over the three recursive-mode flags.
`conflictExit 0` is `log.critical(...)` followed by `sys.exit()`, which
terminates the process with status 0. -/
def processBooks (recurseFetch recurseCombine recursePreserve : Bool) : ProcOutcome :=
  if (recurseFetch && recurseCombine) || (recurseFetch && recursePreserve) ||
      (recurseCombine && recursePreserve) then .conflictExit 0
  else if recurseFetch then .run .recurseFetch
  else if recurseCombine then .run .recurseCombine
  else if recursePreserve then .run .recursePreserve
  else .run .singleLevel

/-! ### Specification-side properties used by the corrected claims -/

/-- The property claimed by the specification for a mode conflict: the
run terminates through the logged conflict exit *with a non-zero exit
status*. -/
def claimedConflictBehaviour (rf rc rp : Bool) : Prop :=
  ∃ c : ℕ, processBooks rf rc rp = ProcOutcome.conflictExit c ∧ c ≠ 0

/-- The invariant claimed by the specification: over any run (sequence of
ledger calls starting from the empty module state), no path is recorded in
both ledgers. -/
def claimedLedgerExclusivity : Prop :=
  ∀ (ops : List LedgerOp) (p : String),
    p ∈ (runLedgerOps ops).fails → p ∉ (runLedgerOps ops).skips

/-- What the (implicit) claim asserts about `getAudioFiles`: a returned
list is never empty. -/
def claimedNeverEmptyList : Prop :=
  ∀ (entries : List String) (batch offset : ℤ) (l : List String),
    getAudioFiles entries batch offset = Sum.inr l → l ≠ []

/-! ## Theorems

First the facts about the binary64 rounding model needed by the claims. -/

theorem qlog2Core_pow_le (n d : ℕ) (hn : 0 < n) (hd : 0 < d) :
    (2 : ℚ) ^ qlog2Core n d ≤ (n : ℚ) / d := by
  have hdq : (0:ℚ) < (d : ℚ) := by exact_mod_cast hd
  rw [qlog2Core]
  split_ifs with h
  · rw [zpow_sub₀ (by norm_num : (2:ℚ) ≠ 0), zpow_natCast, zpow_natCast,
      div_le_div_iff₀ (by positivity) hdq]
    have h' : 2 ^ Nat.log 2 n * d ≤ n * 2 ^ Nat.log 2 d := by
      rw [Nat.mul_comm] at h
      exact h
    exact_mod_cast h'
  · have h1 : 2 ^ Nat.log 2 n ≤ n := Nat.pow_log_le_self 2 hn.ne'
    have h2 : d < 2 ^ (Nat.log 2 d + 1) := Nat.lt_pow_succ_log_self (by norm_num) d
    have key : 2 ^ Nat.log 2 n * d ≤ n * 2 ^ (Nat.log 2 d + 1) := by
      calc 2 ^ Nat.log 2 n * d ≤ n * d := Nat.mul_le_mul_right d h1
        _ ≤ n * 2 ^ (Nat.log 2 d + 1) := Nat.mul_le_mul_left n h2.le
    have he : ((Nat.log 2 n : ℤ) - Nat.log 2 d - 1) =
        (Nat.log 2 n : ℤ) - ((Nat.log 2 d : ℕ) + 1 : ℕ) := by push_cast; ring
    rw [he, zpow_sub₀ (by norm_num : (2:ℚ) ≠ 0), zpow_natCast, zpow_natCast,
      div_le_div_iff₀ (by positivity) hdq]
    exact_mod_cast key

theorem qlog2Core_lt_pow (n d : ℕ) (hn : 0 < n) (hd : 0 < d) :
    (n : ℚ) / d < (2 : ℚ) ^ (qlog2Core n d + 1) := by
  have hdq : (0:ℚ) < (d : ℚ) := by exact_mod_cast hd
  rw [qlog2Core]
  split_ifs with h
  · have h1 : n < 2 ^ (Nat.log 2 n + 1) := Nat.lt_pow_succ_log_self (by norm_num) n
    have h2 : 2 ^ Nat.log 2 d ≤ d := Nat.pow_log_le_self 2 hd.ne'
    have key : n * 2 ^ Nat.log 2 d < 2 ^ (Nat.log 2 n + 1) * d := by
      calc n * 2 ^ Nat.log 2 d < 2 ^ (Nat.log 2 n + 1) * 2 ^ Nat.log 2 d :=
            mul_lt_mul_of_pos_right h1 (by positivity)
        _ ≤ 2 ^ (Nat.log 2 n + 1) * d := Nat.mul_le_mul_left _ h2
    have he : ((Nat.log 2 n : ℤ) - Nat.log 2 d + 1) =
        ((Nat.log 2 n : ℕ) + 1 : ℕ) - (Nat.log 2 d : ℤ) := by push_cast; ring
    rw [he, zpow_sub₀ (by norm_num : (2:ℚ) ≠ 0), zpow_natCast, zpow_natCast,
      div_lt_div_iff₀ hdq (by positivity)]
    exact_mod_cast key
  · have key : n * 2 ^ Nat.log 2 d < d * 2 ^ Nat.log 2 n := Nat.lt_of_not_le h
    have he : ((Nat.log 2 n : ℤ) - Nat.log 2 d - 1 + 1) =
        (Nat.log 2 n : ℤ) - Nat.log 2 d := by ring
    rw [he, zpow_sub₀ (by norm_num : (2:ℚ) ≠ 0), zpow_natCast, zpow_natCast,
      div_lt_div_iff₀ hdq (by positivity)]
    have key' : n * 2 ^ Nat.log 2 d < 2 ^ Nat.log 2 n * d := by
      rw [Nat.mul_comm (2 ^ Nat.log 2 n) d]
      exact key
    exact_mod_cast key'

theorem rat_eq_num_div_den_q (q : ℚ) (hq : 0 < q) :
    q = (q.num.toNat : ℚ) / (q.den : ℚ) := by
  have hnum : 0 < q.num := Rat.num_pos.mpr hq
  have hcast : ((q.num.toNat : ℕ) : ℚ) = ((q.num : ℤ) : ℚ) := by
    exact_mod_cast congrArg (fun z : ℤ => (z : ℚ)) (Int.toNat_of_nonneg hnum.le)
  rw [hcast, Rat.num_div_den]

theorem qlog2_pow_le (q : ℚ) (hq : 0 < q) : (2 : ℚ) ^ qlog2 q ≤ q := by
  have hnum : 0 < q.num := Rat.num_pos.mpr hq
  have hn : 0 < q.num.toNat := by
    rw [Int.lt_toNat]
    exact_mod_cast hnum
  have h := qlog2Core_pow_le q.num.toNat q.den hn q.den_pos
  rw [← rat_eq_num_div_den_q q hq] at h
  exact h

theorem lt_qlog2_pow_succ (q : ℚ) (hq : 0 < q) : q < (2 : ℚ) ^ (qlog2 q + 1) := by
  have hnum : 0 < q.num := Rat.num_pos.mpr hq
  have hn : 0 < q.num.toNat := by
    rw [Int.lt_toNat]
    exact_mod_cast hnum
  have h := qlog2Core_lt_pow q.num.toNat q.den hn q.den_pos
  rw [← rat_eq_num_div_den_q q hq] at h
  exact h

theorem qlog2_unique (q : ℚ) (e : ℤ) (hq : 0 < q) (h1 : (2 : ℚ) ^ e ≤ q)
    (h2 : q < (2 : ℚ) ^ (e + 1)) : qlog2 q = e := by
  by_contra hne
  rcases lt_or_gt_of_ne hne with hlt | hgt
  · have : qlog2 q + 1 ≤ e := hlt
    have hmono : (2 : ℚ) ^ (qlog2 q + 1) ≤ 2 ^ e :=
      zpow_le_zpow_right₀ (by norm_num) this
    exact absurd ((lt_qlog2_pow_succ q hq).trans_le (hmono.trans h1)) (lt_irrefl q)
  · have : e + 1 ≤ qlog2 q := hgt
    have hmono : (2 : ℚ) ^ (e + 1) ≤ 2 ^ qlog2 q :=
      zpow_le_zpow_right₀ (by norm_num) this
    exact absurd (h2.trans_le (hmono.trans (qlog2_pow_le q hq))) (lt_irrefl q)

theorem fl_of_nonpos {q : ℚ} (h : q ≤ 0) : fl q = 0 := by
  simp [fl, h]

theorem fl_nonneg (q : ℚ) : 0 ≤ fl q := by
  by_cases h : q ≤ 0
  · rw [fl_of_nonpos h]
  · have hq : 0 < q := lt_of_not_le h
    simp only [fl, if_neg h]
    have hpow : (0:ℚ) < 2 ^ (qlog2 q - 52) := zpow_pos (by norm_num) _
    have hq' : 0 < q / 2 ^ (qlog2 q - 52) := div_pos hq hpow
    have hm : 0 ≤ ⌊q / 2 ^ (qlog2 q - 52)⌋ := Int.floor_nonneg.mpr hq'.le
    apply mul_nonneg _ hpow.le
    have hsel : 0 ≤ (if 1/2 < q / 2 ^ (qlog2 q - 52) - (⌊q / 2 ^ (qlog2 q - 52)⌋ : ℚ)
        then ⌊q / 2 ^ (qlog2 q - 52)⌋ + 1
        else if q / 2 ^ (qlog2 q - 52) - (⌊q / 2 ^ (qlog2 q - 52)⌋ : ℚ) = 1/2 ∧
            ⌊q / 2 ^ (qlog2 q - 52)⌋ % 2 = 1 then ⌊q / 2 ^ (qlog2 q - 52)⌋ + 1
        else ⌊q / 2 ^ (qlog2 q - 52)⌋) := by
      split_ifs <;> omega
    exact_mod_cast hsel

theorem fl_le (q : ℚ) (h : 0 ≤ q) : fl q ≤ q + q / 2 ^ (53 : ℕ) := by
  rcases h.eq_or_lt with rfl | hq
  · rw [fl_of_nonpos le_rfl]
    norm_num
  · have hnle : ¬q ≤ 0 := not_le.mpr hq
    simp only [fl, if_neg hnle]
    set s : ℤ := qlog2 q - 52 with hs
    have hpow : (0:ℚ) < 2 ^ s := zpow_pos (by norm_num) _
    set q' : ℚ := q / 2 ^ s with hq'
    set m : ℤ := ⌊q'⌋ with hm
    have hmle : (m : ℚ) ≤ q' := Int.floor_le q'
    have hsel : (((if 1/2 < q' - (m:ℚ) then m + 1
        else if q' - (m:ℚ) = 1/2 ∧ m % 2 = 1 then m + 1 else m) : ℤ) : ℚ) ≤ q' + 1/2 := by
      split_ifs with h1 h2
      · push_cast
        linarith
      · push_cast
        linarith [h2.1]
      · linarith
    have hmul : (((if 1/2 < q' - (m:ℚ) then m + 1
        else if q' - (m:ℚ) = 1/2 ∧ m % 2 = 1 then m + 1 else m) : ℤ) : ℚ) * 2 ^ s ≤
        (q' + 1/2) * 2 ^ s := mul_le_mul_of_nonneg_right hsel hpow.le
    have hqq : q' * 2 ^ s = q := div_mul_cancel₀ q (ne_of_gt hpow)
    have hhalf : (1/2 : ℚ) * 2 ^ s = 2 ^ (s - 1) := by
      rw [zpow_sub₀ (by norm_num : (2:ℚ) ≠ 0) s 1, zpow_one]
      ring
    have htail : (2:ℚ) ^ (s - 1) ≤ q / 2 ^ (53 : ℕ) := by
      have h1 : (2:ℚ) ^ (s - 1) = 2 ^ qlog2 q / 2 ^ (53 : ℕ) := by
        rw [hs, show qlog2 q - 52 - 1 = qlog2 q - 53 by ring,
          zpow_sub₀ (by norm_num : (2:ℚ) ≠ 0)]
        norm_num
      rw [h1]
      gcongr
      exact qlog2_pow_le q hq
    calc (((if 1/2 < q' - (m:ℚ) then m + 1
        else if q' - (m:ℚ) = 1/2 ∧ m % 2 = 1 then m + 1 else m) : ℤ) : ℚ) * 2 ^ s
        ≤ (q' + 1/2) * 2 ^ s := hmul
      _ = q + 2 ^ (s - 1) := by rw [add_mul, hqq, hhalf]
      _ ≤ q + q / 2 ^ (53 : ℕ) := by linarith

theorem fl_eq_down (q : ℚ) (e mv : ℤ) (hq : 0 < q) (h1 : (2:ℚ) ^ e ≤ q)
    (h2 : q < (2:ℚ) ^ (e + 1)) (hm : ⌊q / 2 ^ (e - 52)⌋ = mv)
    (hr : q / 2 ^ (e - 52) - (mv : ℚ) < 1/2 ∨
      (q / 2 ^ (e - 52) - (mv : ℚ) = 1/2 ∧ mv % 2 = 0)) :
    fl q = (mv : ℚ) * 2 ^ (e - 52) := by
  have he : qlog2 q = e := qlog2_unique q e hq h1 h2
  simp only [fl, if_neg (not_le.mpr hq), he, hm]
  rcases hr with hlt | ⟨heq, hev⟩
  · rw [if_neg (by linarith), if_neg ?_]
    rintro ⟨habs, -⟩
    linarith
  · rw [if_neg (by linarith), if_neg ?_]
    rintro ⟨-, hodd⟩
    omega

theorem fl_eq_up (q : ℚ) (e mv : ℤ) (hq : 0 < q) (h1 : (2:ℚ) ^ e ≤ q)
    (h2 : q < (2:ℚ) ^ (e + 1)) (hm : ⌊q / 2 ^ (e - 52)⌋ = mv)
    (hr : 1/2 < q / 2 ^ (e - 52) - (mv : ℚ) ∨
      (q / 2 ^ (e - 52) - (mv : ℚ) = 1/2 ∧ mv % 2 = 1)) :
    fl q = ((mv + 1 : ℤ) : ℚ) * 2 ^ (e - 52) := by
  have he : qlog2 q = e := qlog2_unique q e hq h1 h2
  simp only [fl, if_neg (not_le.mpr hq), he, hm]
  rcases hr with hlt | ⟨heq, hodd⟩
  · rw [if_pos hlt]
  · rw [if_neg (by linarith), if_pos ⟨heq, hodd⟩]

theorem fl_100_c0p6 : fl (100 * c0p6) = 60 := by
  have h := fl_eq_up (100 * c0p6) 5 8444249301319679
    (by norm_num [c0p6]) (by norm_num [c0p6]) (by norm_num [c0p6])
    (by rw [Int.floor_eq_iff]
        constructor <;> norm_num [c0p6])
    (by norm_num [c0p6])
  rw [h]
  norm_num

theorem fl_100_c0p4 : fl (100 * c0p4) = 40 := by
  have h := fl_eq_down (100 * c0p4) 5 5629499534213120
    (by norm_num [c0p4]) (by norm_num [c0p4]) (by norm_num [c0p4])
    (by rw [Int.floor_eq_iff]
        constructor <;> norm_num [c0p4])
    (by norm_num [c0p4])
  rw [h]
  norm_num

theorem fl_100 : fl (100 : ℚ) = 100 := by
  have h := fl_eq_down (100 : ℚ) 6 7036874417766400
    (by norm_num) (by norm_num) (by norm_num)
    (by rw [Int.floor_eq_iff]
        constructor <;> norm_num)
    (by norm_num)
  rw [h]
  norm_num

theorem fl_85_c0p6 : fl (85 * c0p6) = 51 := by
  have h := fl_eq_up (85 * c0p6) 5 7177611906121727
    (by norm_num [c0p6]) (by norm_num [c0p6]) (by norm_num [c0p6])
    (by rw [Int.floor_eq_iff]
        constructor <;> norm_num [c0p6])
    (by norm_num [c0p6])
  rw [h]
  norm_num

theorem fl_51 : fl (51 : ℚ) = 51 := by
  have h := fl_eq_down (51 : ℚ) 5 7177611906121728
    (by norm_num) (by norm_num) (by norm_num)
    (by rw [Int.floor_eq_iff]
        constructor <;> norm_num)
    (by norm_num)
  rw [h]
  norm_num

theorem fl_14_c0p4 : fl (14 * c0p4) = 6305039478318695 / 2 ^ 50 := by
  have h := fl_eq_up (14 * c0p4) 2 6305039478318694
    (by norm_num [c0p4]) (by norm_num [c0p4]) (by norm_num [c0p4])
    (by rw [Int.floor_eq_iff]
        constructor <;> norm_num [c0p4])
    (by norm_num [c0p4])
  rw [h]
  norm_num

theorem fl_val14 : fl (6305039478318695 / 2 ^ 50) = 6305039478318695 / 2 ^ 50 := by
  have h := fl_eq_down (6305039478318695 / 2 ^ 50 : ℚ) 2 6305039478318695
    (by norm_num) (by norm_num) (by norm_num)
    (by rw [Int.floor_eq_iff]
        constructor <;> norm_num)
    (by norm_num)
  rw [h]
  norm_num

theorem fl_one_seventh : fl (1 / 7) = 5146971002709138 / 2 ^ 55 := by
  have h := fl_eq_down (1 / 7 : ℚ) (-3) 5146971002709138
    (by norm_num) (by norm_num) (by norm_num)
    (by rw [Int.floor_eq_iff]
        constructor <;> norm_num)
    (by norm_num)
  rw [h]
  norm_num

theorem fl_one_seventh_100 :
    fl (5146971002709138 / 2 ^ 55 * 100) = 8042142191733028 / 2 ^ 49 := by
  have h := fl_eq_down (5146971002709138 / 2 ^ 55 * 100 : ℚ) 3 8042142191733028
    (by norm_num) (by norm_num) (by norm_num)
    (by rw [Int.floor_eq_iff]
        constructor <;> norm_num)
    (by norm_num)
  rw [h]
  norm_num

theorem fl_halfms : fl (1 / 2048 * 1000) = 125 / 256 := by
  have h := fl_eq_down (1 / 2048 * 1000 : ℚ) (-2) 8796093022208000
    (by norm_num) (by norm_num) (by norm_num)
    (by rw [Int.floor_eq_iff]
        constructor <;> norm_num)
    (by norm_num)
  rw [h]
  norm_num

theorem fl_125_256 : fl (125 / 256 : ℚ) = 125 / 256 := by
  have h := fl_eq_down (125 / 256 : ℚ) (-2) 8796093022208000
    (by norm_num) (by norm_num) (by norm_num)
    (by rw [Int.floor_eq_iff]
        constructor <;> norm_num)
    (by norm_num)
  rw [h]
  norm_num

theorem fl_1000 : fl (1 * 1000 : ℚ) = 1000 := by
  have h := fl_eq_down (1 * 1000 : ℚ) 9 8796093022208000
    (by norm_num) (by norm_num) (by norm_num)
    (by rw [Int.floor_eq_iff]
        constructor <;> norm_num)
    (by norm_num)
  rw [h]
  norm_num

theorem fl_chap2_end : fl (125 / 256 + 1000 : ℚ) = 256125 / 256 := by
  have h := fl_eq_down (125 / 256 + 1000 : ℚ) 9 8800387989504000
    (by norm_num) (by norm_num) (by norm_num)
    (by rw [Int.floor_eq_iff]
        constructor <;> norm_num)
    (by norm_num)
  rw [h]
  norm_num

/-! ### C2: the `GETpage` retry loop never reaches its give-up branch -/

theorem retryStep_two : retryStep 2 = RetryState.retrying 3 := by
  norm_num [retryStep]

theorem retryStep_three : retryStep 3 = RetryState.retrying 3 := by
  norm_num [retryStep]

theorem retryLoop_parked_at_three (n : ℕ) : retryLoop n 3 = RetryState.retrying 3 := by
  induction n with
  | zero => rfl
  | succ k ih =>
    rw [retryLoop, retryStep_three]
    exact ih

/-- C2.  The claim says the retry loop of `GETpage` terminates: it waits 2
seconds, multiplies the wait by 1.5 after each failure, and gives up once
the wait would reach 10 seconds.  The code's handler only advances the
timer when it still equals 2, so after the first failure the timer is
parked at 3.0 forever: after any positive number of consecutive raising
attempts the loop is still retrying with timer 3.0, and the `timer >= 10`
give-up branch (`return None`) is never taken — on a permanently failing
uncached URL, `GETpage` retries indefinitely. -/
theorem c2_getpage_retry_never_gives_up (n : ℕ) :
    retryLoop (n + 1) 2 = RetryState.retrying 3 ∧
      retryLoop (n + 1) 2 ≠ RetryState.aborted := by
  have h : retryLoop (n + 1) 2 = retryLoop n 3 := by
    rw [retryLoop, retryStep_two]
  rw [h, retryLoop_parked_at_three]
  exact ⟨rfl, by simp⟩

/-! ### C3: a mode conflict logs and exits, but with status 0 -/

/-- C3 counterexample.  With `recurseFetch` and `recurseCombine` both set,
`processBooks` does take the logged conflict exit, but `sys.exit()` (no
argument) terminates the process with exit status 0, so the claimed
non-zero exit status is false. -/
theorem c3_counterexample :
    processBooks true true false = ProcOutcome.conflictExit 0 ∧
      ¬claimedConflictBehaviour true true false := by
  refine ⟨by decide, ?_⟩
  rintro ⟨c, hc, hne⟩
  rw [(by decide : processBooks true true false = ProcOutcome.conflictExit 0)] at hc
  exact hne (by injection hc with h; exact h.symm)

/-- C3 amended.  If more than one of the three mutually exclusive
recursive processing modes is selected, the conflict is logged at the start
of the run (`log.critical`) and the process terminates — but via the
argument-less `sys.exit()`, i.e. with exit status 0, not a non-zero one. -/
theorem c3_conflict_logged_exit_status_zero (rf rc rp : Bool)
    (h : ((rf && rc) || (rf && rp) || (rc && rp)) = true) :
    processBooks rf rc rp = ProcOutcome.conflictExit 0 := by
  rw [processBooks, if_pos h]

theorem c3_conflict_logged_exit_status_zero_witness :
    (((true && true) || (true && false) || (true && false)) = true) ∧
      processBooks true true false = ProcOutcome.conflictExit 0 :=
  ⟨by decide, c3_conflict_logged_exit_status_zero true true false (by decide)⟩

/-! ### C4: the skip and fail ledgers are not mutually exclusive -/

/-- C4 counterexample.  `failBook` then `skipBook` on the same path records
it in both ledgers: neither function checks the other's ledger.  (The
sequence is reachable in one run: `failBook` writes the
`ultimate-audiobook-fail.txt` marker, and `mergeBook` on a folder carrying
that marker calls `skipBook(folder, "Previously failed: ...")`.) -/
theorem c4_counterexample :
    ("b" ∈ (runLedgerOps [LedgerOp.fail "b", LedgerOp.skip "b"]).fails ∧
      "b" ∈ (runLedgerOps [LedgerOp.fail "b", LedgerOp.skip "b"]).skips) ∧
      ¬claimedLedgerExclusivity := by
  refine ⟨⟨by decide, by decide⟩, ?_⟩
  intro h
  exact absurd (by decide : "b" ∈ (runLedgerOps [LedgerOp.fail "b", LedgerOp.skip "b"]).skips)
    (h [LedgerOp.fail "b", LedgerOp.skip "b"] "b" (by decide))

/-- C4 amended.  The two ledgers are not mutually exclusive: recording an
item as failed does not prevent it from later being recorded as skipped —
`failBook` followed by `skipBook` on the same item puts its original path
in both ledgers.  Each function only de-duplicates within its own ledger
(`failBook` by original path, so the fail ledger stays duplicate-free). -/
theorem c4_ledgers_not_mutually_exclusive :
    (∀ (s : LedgerState) (x : String), x ∉ s.skips →
      origOf s x ∈ (skipBook (failBook s x) x).fails ∧
        origOf s x ∈ (skipBook (failBook s x) x).skips) ∧
      (∀ (s : LedgerState) (x : String), s.fails.Nodup → ((failBook s x).fails).Nodup) := by
  constructor
  · intro s x hx
    have horig : origOf (failBook s x) x = origOf s x := by
      rw [failBook]
      split_ifs <;> rfl
    have hfails : origOf s x ∈ (failBook s x).fails := by
      rw [failBook]
      split_ifs with hmem
      · exact hmem
      · simp
    have hskips : (failBook s x).skips = s.skips := by
      rw [failBook]
      split_ifs <;> rfl
    constructor
    · rw [skipBook]
      split_ifs <;> exact hfails
    · rw [skipBook, if_neg (by rw [hskips]; exact hx), horig]
      simp [hskips]
  · intro s x hnd
    rw [failBook]
    split_ifs with hmem
    · exact hnd
    · simpa [List.Nodup, List.pairwise_append] using ⟨hnd, fun a ha => fun h => hmem (h ▸ ha)⟩

theorem c4_ledgers_not_mutually_exclusive_witness :
    ("b" ∉ (⟨[], [], []⟩ : LedgerState).skips ∧
      origOf ⟨[], [], []⟩ "b" ∈ (skipBook (failBook ⟨[], [], []⟩ "b") "b").fails ∧
      origOf ⟨[], [], []⟩ "b" ∈ (skipBook (failBook ⟨[], [], []⟩ "b") "b").skips) ∧
      ((⟨[], [], []⟩ : LedgerState).fails.Nodup ∧
        ((failBook ⟨[], [], []⟩ "b").fails).Nodup) :=
  ⟨⟨by decide,
    (c4_ledgers_not_mutually_exclusive.1 ⟨[], [], []⟩ "b" (by decide)).1,
    (c4_ledgers_not_mutually_exclusive.1 ⟨[], [], []⟩ "b" (by decide)).2⟩,
    ⟨List.nodup_nil, c4_ledgers_not_mutually_exclusive.2 ⟨[], [], []⟩ "b" List.nodup_nil⟩⟩

/-! ### C8: `cleanAuthorForPath` strips stacked credentials -/

/-- C8.  `cleanAuthorForPath` strips trailing professional credentials
repeatedly until no further change: both `"Daniel J. Siegel MD"` and
`"Daniel J. Siegel M.D."` clean to `"Daniel J. Siegel"`, and
`"Jane Doe MA MFT"` (two stacked credentials) cleans to `"Jane Doe"`. -/
theorem c8_cleanAuthorForPath_credentials :
    cleanAuthorForPath "Daniel J. Siegel MD" = "Daniel J. Siegel" ∧
      cleanAuthorForPath "Daniel J. Siegel M.D." = "Daniel J. Siegel" ∧
      cleanAuthorForPath "Jane Doe MA MFT" = "Jane Doe" := by
  refine ⟨?_, ?_, ?_⟩ <;> decide

/-! ### C5: the chapter manifest of `createTempFiles` -/

theorem chapterBlocksAux_length (ps : List (String × ℚ)) :
    ∀ (running : ℚ) (k : ℕ),
      (chapterBlocksAux running k (ps.map some)).length = ps.length := by
  induction ps with
  | nil => intro running k; rfl
  | cons p ps' ih =>
    intro running k
    cases p with
    | mk name d =>
      simp only [List.map, chapterBlocksAux, List.length_cons]
      rw [ih]

theorem chapterBlocksAux_get? (ps : List (String × ℚ)) :
    ∀ (running : ℚ) (k i : ℕ),
      (chapterBlocksAux running k (ps.map some)).get? i =
        if i < ps.length then
          some ⟨"1/1000", floatCumFrom running ((ps.map Prod.snd).take i),
            floatCumFrom running ((ps.map Prod.snd).take (i + 1)), k + i⟩
        else none := by
  induction ps with
  | nil =>
    intro running k i
    simp [chapterBlocksAux]
  | cons p ps' ih =>
    intro running k i
    cases p with
    | mk name d =>
      cases i with
      | zero =>
        simp only [List.map, chapterBlocksAux, List.get?, List.length_cons, Nat.zero_lt_succ,
          if_pos, List.take_zero, List.take_succ_cons, floatCumFrom, List.foldl]
        simp
      | succ i' =>
        simp only [List.map, chapterBlocksAux, List.get?]
        rw [ih]
        simp only [List.length_cons, Nat.succ_lt_succ_iff, List.take_succ_cons]
        split_ifs with h
        · have h1 : floatCumFrom running (d :: (ps'.map Prod.snd).take i') =
              floatCumFrom (fl (running + fl (d * 1000))) ((ps'.map Prod.snd).take i') := rfl
          have h2 : floatCumFrom running (d :: (ps'.map Prod.snd).take (i' + 1)) =
              floatCumFrom (fl (running + fl (d * 1000))) ((ps'.map Prod.snd).take (i' + 1)) := rfl
          rw [← h1, ← h2]
          have ht : k + 1 + i' = k + (i' + 1) := by omega
          rw [ht]
        · rfl

/-- C5 amended.  For every ordered non-empty chapter list, the manifest
begins with the `;FFMETADATA1` header and has one `[CHAPTER]` block per
chapter with `TIMEBASE=1/1000`, `title=Chapter n` numbered from 1, START
the running millisecond offset of the preceding chapters and END the
offset after the chapter — but the offsets are the raw binary64
accumulation `runningTime += length * 1000` of the float durations, not
rounded to integers. -/
theorem c5_manifest_structure (ps : List (String × ℚ)) (hne : ps ≠ []) :
    ((createTempFiles (ps.map some)).2).header = ";FFMETADATA1" ∧
      ((createTempFiles (ps.map some)).2).blocks ≠ [] ∧
      ((createTempFiles (ps.map some)).2).blocks.length = ps.length ∧
      ∀ i : ℕ, i < ps.length →
        ((createTempFiles (ps.map some)).2).blocks.get? i =
          some ⟨"1/1000", floatCumMs ((ps.map Prod.snd).take i),
            floatCumMs ((ps.map Prod.snd).take (i + 1)), i + 1⟩ := by
  refine ⟨rfl, ?_, ?_, ?_⟩
  · show chapterBlocksAux 0 1 (ps.map some) ≠ []
    intro habs
    have := chapterBlocksAux_length ps 0 1
    rw [habs] at this
    exact hne (List.length_eq_zero.mp this.symm)
  · exact chapterBlocksAux_length ps 0 1
  · intro i hi
    show (chapterBlocksAux 0 1 (ps.map some)).get? i = _
    rw [chapterBlocksAux_get? ps 0 1 i, if_pos hi]
    rw [floatCumMs, floatCumMs, Nat.add_comm 1 i]

theorem c5_manifest_structure_witness :
    (([("a", (1 : ℚ))] : List (String × ℚ)) ≠ []) ∧ (0 < 1) ∧
      ((createTempFiles (([("a", (1 : ℚ))] : List (String × ℚ)).map some)).2).blocks.get? 0 =
        some ⟨"1/1000", floatCumMs ((([("a", (1 : ℚ))] : List (String × ℚ)).map Prod.snd).take 0),
          floatCumMs ((([("a", (1 : ℚ))] : List (String × ℚ)).map Prod.snd).take 1), 1⟩ :=
  ⟨by simp, by norm_num,
    (c5_manifest_structure [("a", (1 : ℚ))] (by simp)).2.2.2 0 (by norm_num)⟩

/-- C5 counterexample.  With a first chapter of 2^-11 seconds (an exact
binary64 duration) and a second of 1 second, the second block's START is
`125/256` milliseconds — the accumulated float offset — which is not an
integer, so START is not the *integer*-millisecond offset the claim
states. -/
theorem c5_counterexample :
    ((createTempFiles [some ("a", 1/2048), some ("b", 1)]).2).blocks.get? 1 =
      some ⟨"1/1000", 125/256, 256125/256, 2⟩ ∧
      ¬∃ z : ℤ, ((125 : ℚ)/256) = (z : ℚ) := by
  constructor
  · have e1 : fl (0 + fl (1/2048 * 1000)) = 125/256 := by
      rw [fl_halfms, zero_add, fl_125_256]
    have e2 : fl (125/256 + fl (1 * 1000)) = 256125/256 := by
      rw [fl_1000, fl_chap2_end]
    show (chapterBlocksAux 0 1 [some ("a", 1/2048), some ("b", 1)]).get? 1 = _
    simp only [chapterBlocksAux]
    rw [e1, e2]
    rfl
  · rintro ⟨z, hz⟩
    rw [div_eq_iff (by norm_num : (256:ℚ) ≠ 0)] at hz
    have hz' : (125 : ℤ) = z * 256 := by exact_mod_cast hz
    omega

/-! ### C1: `checkOutputExists` extension priority and the m4b-only flag -/

theorem strEndsWith_append (ct e : String) : strEndsWith (ct ++ e) e = true := by
  rw [strEndsWith, List.isSuffixOf_iff_suffix]
  have h : (ct ++ e).toList = ct.toList ++ e.toList := by
    simp [String.toList]
  rw [h]
  exact List.suffix_append _ _

theorem searchExts_eq_spec (files : List String) (cleanTitle : Option String) :
    ∀ exts : List String,
      searchExts cleanTitle files exts =
        match exts.find? (fun e => files.any (fun f => strEndsWith f e)) with
        | none => none
        | some e =>
          match cleanTitle with
          | some ct =>
            if ct ≠ "" ∧ (ct ++ e) ∈ files then some (ct ++ e)
            else files.find? (fun f => strEndsWith f e)
          | none => files.find? (fun f => strEndsWith f e) := by
  intro exts
  induction exts with
  | nil => rfl
  | cons e rest ih =>
    by_cases hAny : files.any (fun f => strEndsWith f e) = true
    · have hstep : List.find? (fun x => files.any (fun f => strEndsWith f x)) (e :: rest) =
          some e := List.find?_cons_of_pos _ (by exact hAny)
      rw [hstep]
      obtain ⟨f0, hf0mem, hf0⟩ := List.any_eq_true.mp hAny
      have hfind : ∃ g, files.find? (fun f => strEndsWith f e) = some g := by
        have hs : (files.find? (fun f => strEndsWith f e)).isSome = true :=
          List.find?_isSome.mpr ⟨f0, hf0mem, hf0⟩
        exact Option.isSome_iff_exists.mp hs
      obtain ⟨g, hg⟩ := hfind
      cases cleanTitle with
      | none =>
        simp only [searchExts, hg]
      | some ct =>
        simp only [searchExts]
        by_cases hex : ct ≠ "" ∧ (ct ++ e) ∈ files
        · simp only [if_pos hex]
        · simp only [if_neg hex, hg]
    · have hAny' : files.any (fun f => strEndsWith f e) = false :=
        Bool.eq_false_iff.mpr hAny
      have hnone : files.find? (fun f => strEndsWith f e) = none := by
        rw [List.find?_eq_none]
        intro x hx
        have := List.any_eq_true.not.mp hAny
        exact fun hp => this ⟨x, hx, hp⟩
      have hstep : List.find? (fun x => files.any (fun f => strEndsWith f x)) (e :: rest) =
          List.find? (fun x => files.any (fun f => strEndsWith f x)) rest :=
        List.find?_cons_of_neg _ (by exact hAny)
      rw [hstep]
      cases cleanTitle with
      | none =>
        simp only [searchExts, hnone]
        exact ih
      | some ct =>
        have hex : ¬(ct ≠ "" ∧ (ct ++ e) ∈ files) := by
          rintro ⟨-, hmem⟩
          have : files.any (fun f => strEndsWith f e) = true :=
            List.any_eq_true.mpr ⟨ct ++ e, hmem, strEndsWith_append ct e⟩
          exact hAny this
        simp only [searchExts, if_neg hex, hnone]
        exact ih

/-- C1.  `checkOutputExists` searches extensions in the priority order
`.m4b`, `.mp3`, `.m4a`, `.flac`, `.wav` (restricted to `.m4b` under the
require-chaptered flag), within each extension the exact sanitized-title
file first and then the first glob hit, and returns the first match: it
coincides with the search the specification describes.  With the flag set,
no folder without a `.m4b` yields a hit — in particular a same-title
`.mp3` alone is never treated as existing output — while with the flag
unset the same `.mp3` alone suffices. -/
theorem c1_checkOutputExists_priority :
    (∀ (folderExists : Bool) (files : List String) (title : String) (requireM4B : Bool),
      checkOutputExists folderExists files title requireM4B =
        checkOutputExistsSpec folderExists files title requireM4B) ∧
      (∀ (files : List String) (title : String),
        (∀ f ∈ files, strEndsWith f ".m4b" = false) →
        checkOutputExists true files title true = none) ∧
      checkOutputExists true ["T.mp3"] "T" true = none ∧
      checkOutputExists true ["T.mp3"] "T" false = some "T.mp3" := by
  refine ⟨?_, ?_, by decide, by decide⟩
  · intro folderExists files title requireM4B
    cases folderExists with
    | false => rfl
    | true =>
      simp only [checkOutputExists, checkOutputExistsSpec, Bool.true_eq_false, if_false]
      exact searchExts_eq_spec files _ _
  · intro files title hno
    have hAny : files.any (fun f => strEndsWith f ".m4b") = false := by
      rw [List.any_eq_false]
      intro x hx
      rw [hno x hx]
      simp
    show searchExts (if title ≠ "" then some (cleanTitleForPath title) else none) files [".m4b"] = none
    rw [searchExts_eq_spec]
    have hstep : List.find? (fun x => files.any (fun f => strEndsWith f x)) [".m4b"] =
        List.find? (fun x => files.any (fun f => strEndsWith f x)) [] :=
      List.find?_cons_of_neg _ (by rw [hAny]; simp)
    rw [hstep, List.find?_nil]

theorem c1_checkOutputExists_priority_witness :
    (∀ f ∈ ["x.mp3"], strEndsWith f ".m4b" = false) ∧
      checkOutputExists true ["x.mp3"] "T" true = none :=
  ⟨by decide, c1_checkOutputExists_priority.2.1 ["x.mp3"] "T" (by decide)⟩

/-! ### C10: `getAudioFiles` sentinel, sorting and slicing -/

theorem charListLe_trans :
    ∀ a b c : List Char, charListLe a b = true → charListLe b c = true →
      charListLe a c = true := by
  intro a
  induction a with
  | nil => intro b c _ _; rfl
  | cons x xs ih =>
    intro b c h1 h2
    cases b with
    | nil => simp [charListLe] at h1
    | cons y ys =>
      cases c with
      | nil => simp [charListLe] at h2
      | cons z zs =>
        simp only [charListLe] at h1 h2 ⊢
        split_ifs at h1 h2 ⊢ <;> first
          | rfl
          | omega
          | (exact ih ys zs h1 h2)

theorem charListLe_total (a b : List Char) :
    charListLe a b = true ∨ charListLe b a = true := by
  induction a generalizing b with
  | nil => left; rfl
  | cons x xs ih =>
    cases b with
    | nil => right; rfl
    | cons y ys =>
      simp only [charListLe]
      rcases Nat.lt_trichotomy x.toNat y.toNat with h | h | h
      · left
        rw [if_pos h]
      · rcases ih ys with h' | h'
        · left
          rw [if_neg (by omega), if_neg (by omega)]
          exact h'
        · right
          rw [if_neg (by omega), if_neg (by omega)]
          exact h'
      · right
        rw [if_pos h]

theorem pathKeyLe_trans (a b c : String) (h1 : pathKeyLe a b = true)
    (h2 : pathKeyLe b c = true) : pathKeyLe a c = true :=
  charListLe_trans _ _ _ h1 h2

theorem pathKeyLe_total (a b : String) : (pathKeyLe a b || pathKeyLe b a) = true := by
  rcases charListLe_total (a.toList.map Char.toLower) (b.toList.map Char.toLower) with h | h
  · rw [pathKeyLe, h]
    rfl
  · rw [pathKeyLe, pathKeyLe, h]
    simp

/-- C10 counterexample.  One matching file with `offset = 1`: the offset
slice empties the list and `getAudioFiles` returns `inr []` — an empty
list, not the `-1` sentinel. -/
theorem c10_counterexample :
    getAudioFiles ["d/a.mp3"] (-1) 1 = Sum.inr [] ∧ ¬claimedNeverEmptyList := by
  have hres : getAudioFiles ["d/a.mp3"] (-1) 1 = Sum.inr [] := by
    simp only [getAudioFiles]
    rw [(by decide : List.filter globM4 ["d/a.mp3"] ++ List.filter globMp ["d/a.mp3"] ++
      List.filter globFlac ["d/a.mp3"] ++ List.filter globWav ["d/a.mp3"] = ["d/a.mp3"]),
      List.mergeSort_singleton]
    norm_num
  exact ⟨hres, fun h => h ["d/a.mp3"] (-1) 1 [] hres rfl⟩

/-- C10 amended.  `getAudioFiles` returns the integer sentinel `-1`
exactly when no entry matches a supported audio pattern; otherwise it
returns the matches sorted case-insensitively by full path string, with
the offset applied before the batch limit truncates the result — a list
that is empty whenever the offset consumes all matches (so the result is
not always non-empty). -/
theorem c10_getAudioFiles_shape (entries : List String) (batch offset : ℤ) :
    (getAudioFiles entries batch offset = Sum.inl (-1) ↔ audioMatches entries = []) ∧
      ∀ l, getAudioFiles entries batch offset = Sum.inr l →
        List.Pairwise (fun a b => pathKeyLe a b = true) l ∧
        l = pyBatchLimit (pyOffsetDrop ((audioMatches entries).mergeSort pathKeyLe) offset)
          batch := by
  have hsorted : List.Pairwise (fun a b => pathKeyLe a b = true)
      ((audioMatches entries).mergeSort pathKeyLe) :=
    List.sorted_mergeSort
      (fun a b c => pathKeyLe_trans a b c) (fun a b => pathKeyLe_total a b)
      (audioMatches entries)
  by_cases hlen : ((audioMatches entries).mergeSort pathKeyLe).length = 0
  · have hnil : audioMatches entries = [] := by
      rw [List.length_mergeSort] at hlen
      exact List.length_eq_zero.mp hlen
    have hres : getAudioFiles entries batch offset = Sum.inl (-1) := by
      show (if ((audioMatches entries).mergeSort pathKeyLe).length = 0 then Sum.inl (-1)
        else _) = Sum.inl (-1)
      rw [if_pos hlen]
    refine ⟨⟨fun _ => hnil, fun _ => hres⟩, ?_⟩
    intro l hl
    rw [hres] at hl
    exact absurd hl (by simp)
  · have hne : audioMatches entries ≠ [] := by
      intro habs
      rw [List.length_mergeSort, habs] at hlen
      exact hlen rfl
    have hres : getAudioFiles entries batch offset =
        Sum.inr (pyBatchLimit
          (pyOffsetDrop ((audioMatches entries).mergeSort pathKeyLe) offset) batch) := by
      show (if ((audioMatches entries).mergeSort pathKeyLe).length = 0 then Sum.inl (-1)
        else _) = _
      rw [if_neg hlen, pyBatchLimit, pyOffsetDrop]
      have hrw : List.filter globM4 entries ++ List.filter globMp entries ++
          List.filter globFlac entries ++ List.filter globWav entries =
          audioMatches entries := rfl
      rw [hrw]
      split_ifs <;> rfl
    refine ⟨⟨fun habs => absurd (hres ▸ habs) (by simp), fun habs => absurd habs hne⟩, ?_⟩
    intro l hl
    rw [hres] at hl
    have hl' := Sum.inr.inj hl
    subst hl'
    refine ⟨?_, rfl⟩
    have hsub : (pyBatchLimit
        (pyOffsetDrop ((audioMatches entries).mergeSort pathKeyLe) offset) batch).Sublist
        ((audioMatches entries).mergeSort pathKeyLe) := by
      have h1 : (pyOffsetDrop ((audioMatches entries).mergeSort pathKeyLe) offset).Sublist
          ((audioMatches entries).mergeSort pathKeyLe) := by
        rw [pyOffsetDrop]
        split_ifs
        · exact List.drop_sublist _ _
        · exact List.Sublist.refl _
      have h2 : (pyBatchLimit
          (pyOffsetDrop ((audioMatches entries).mergeSort pathKeyLe) offset) batch).Sublist
          (pyOffsetDrop ((audioMatches entries).mergeSort pathKeyLe) offset) := by
        rw [pyBatchLimit]
        split_ifs
        · exact List.Sublist.refl _
        · rw [pySliceTo]
          split_ifs
          · exact List.take_sublist _ _
          · exact List.take_sublist _ _
      exact h2.trans h1
    exact List.Pairwise.sublist hsub hsorted

theorem c10_getAudioFiles_shape_witness :
    (audioMatches ([] : List String) = []) ∧
      getAudioFiles [] (-1) 0 = Sum.inl (-1) :=
  ⟨by decide, (c10_getAudioFiles_shape [] (-1) 0).1.mpr (by decide)⟩

/-! ### C7: the combined confidence score truncates, it does not round -/

theorem wordOverlapScore_of_inter_zero (xs ys : List String)
    (h : setInterCard xs ys = 0) : wordOverlapScore xs ys = 0 := by
  rw [wordOverlapScore, h]
  split_ifs
  · rw [Nat.cast_zero, zero_div, fl_of_nonpos le_rfl, zero_mul, fl_of_nonpos le_rfl]
    rw [pyInt, Int.floor_zero]
  · rfl

/-- C7 amended.  Whenever both the file-side author and the file-side title
normalize to non-empty text, the combined confidence equals
`int(titleScore * 0.6 + authorScore * 0.4)` evaluated in binary64 — i.e.
the float value *truncated* by `int()`, not rounded by `round()`. -/
theorem c7_combined_truncates (fileAuthor fileTitle audibleAuthor audibleTitle : String)
    (hfa : normalizeForComparison fileAuthor ≠ "")
    (hft : normalizeForComparison fileTitle ≠ "") :
    (calculateMatchConfidence fileAuthor fileTitle audibleAuthor audibleTitle).1 =
      pyInt (fl (fl ((titleScore (normalizeForComparison fileTitle)
          (normalizeForComparison audibleTitle) : ℚ) * c0p6) +
        fl ((authorScore (normalizeForComparison fileAuthor)
          (normalizeForComparison audibleAuthor) : ℚ) * c0p4))) := by
  simp only [calculateMatchConfidence]
  rw [if_neg (by exact fun h => hfa h.1), if_neg hfa, if_neg hft]

theorem c7_combined_truncates_witness :
    (normalizeForComparison "x" ≠ "" ∧ normalizeForComparison "y" ≠ "") ∧
      (calculateMatchConfidence "x" "y" "x" "y").1 =
        pyInt (fl (fl ((titleScore (normalizeForComparison "y")
            (normalizeForComparison "y") : ℚ) * c0p6) +
          fl ((authorScore (normalizeForComparison "x")
            (normalizeForComparison "x") : ℚ) * c0p4))) :=
  ⟨⟨by decide, by decide⟩, c7_combined_truncates "x" "y" "x" "y" (by decide) (by decide)⟩

/-- C7 counterexample.  File side `author = "p q r s"`, `title = "aaa"`,
catalog side `author = "p t u v"`, `title = "bbb"`: the title score is 0
and the author score 14 (one shared word of seven), so the binary64 value
of `titleScore * 0.6 + authorScore * 0.4` is 5.6000000000000005.  The code
returns `int(...) = 5` while the claim's `round(...)` is 6. -/
theorem c7_counterexample :
    (calculateMatchConfidence "p q r s" "aaa" "p t u v" "bbb").1 = 5 ∧
      pyRound (fl (fl ((titleScore (normalizeForComparison "aaa")
          (normalizeForComparison "bbb") : ℚ) * c0p6) +
        fl ((authorScore (normalizeForComparison "p q r s")
          (normalizeForComparison "p t u v") : ℚ) * c0p4))) = 6 := by
  have hnt : normalizeForComparison "aaa" = "aaa" := by decide
  have hnt2 : normalizeForComparison "bbb" = "bbb" := by decide
  have hna : normalizeForComparison "p q r s" = "p q r s" := by decide
  have hna2 : normalizeForComparison "p t u v" = "p t u v" := by decide
  have ht : titleScore "aaa" "bbb" = 0 := by
    rw [titleScore, if_pos (by decide), if_neg (by decide), if_neg (by decide),
      if_pos (by decide)]
    exact wordOverlapScore_of_inter_zero _ _ (by decide)
  have ha : authorScore "p q r s" "p t u v" = 14 := by
    rw [authorScore, if_pos (by decide), if_neg (by decide), if_neg (by decide),
      if_neg (by decide), if_pos (by decide)]
    rw [wordOverlapScore, (by decide : setInterCard (wordsOf "p q r s") (wordsOf "p t u v") = 1),
      (by decide : setUnionCard (wordsOf "p q r s") (wordsOf "p t u v") = 7), if_pos (by norm_num)]
    rw [(by norm_num : ((1 : ℕ) : ℚ) / ((7 : ℕ) : ℚ) = 1 / 7), fl_one_seventh,
      fl_one_seventh_100]
    rw [pyInt, Int.floor_eq_iff]
    norm_num
  have hval : fl (fl ((titleScore (normalizeForComparison "aaa")
      (normalizeForComparison "bbb") : ℚ) * c0p6) +
      fl ((authorScore (normalizeForComparison "p q r s")
        (normalizeForComparison "p t u v") : ℚ) * c0p4)) = 6305039478318695 / 2 ^ 50 := by
    rw [hnt, hnt2, hna, hna2, ht, ha]
    rw [(by norm_num [c0p6] : ((0 : ℤ) : ℚ) * c0p6 = 0), fl_of_nonpos le_rfl]
    rw [(by norm_num : ((14 : ℤ) : ℚ) = (14 : ℚ)), fl_14_c0p4, zero_add, fl_val14]
  constructor
  · show (let fa := normalizeForComparison "p q r s"
      let ft := normalizeForComparison "aaa"
      let aa := normalizeForComparison "p t u v"
      let at_ := normalizeForComparison "bbb"
      let t := titleScore ft at_
      let a := authorScore fa aa
      let combined : ℤ :=
        if fa = "" ∧ ft = "" then 0
        else if fa = "" then t
        else if ft = "" then a
        else pyInt (fl (fl ((t : ℚ) * c0p6) + fl ((a : ℚ) * c0p4)))
      (combined, "title:" ++ toString t ++ "% author:" ++ toString a ++ "%")).1 = 5
    simp only
    rw [if_neg (by rw [hna]; exact fun h => absurd h.1 (by decide)),
      if_neg (by rw [hna]; decide), if_neg (by rw [hnt]; decide)]
    rw [hval]
    rw [pyInt, Int.floor_eq_iff]
    norm_num
  · rw [hval]
    have h5 : ⌊(6305039478318695 / 2 ^ 50 : ℚ)⌋ = 5 := by
      rw [Int.floor_eq_iff]
      norm_num
    simp only [pyRound, h5]
    norm_num

/-! ### C6: range and endpoints of `calculateMatchConfidence` -/

theorem setInterCard_le_setUnionCard (xs ys : List String) :
    setInterCard xs ys ≤ setUnionCard xs ys := by
  calc setInterCard xs ys ≤ xs.dedup.length := List.length_filter_le _ _
    _ = xs.toFinset.card := (List.card_toFinset xs).symm
    _ ≤ (xs ++ ys).toFinset.card := by
        apply Finset.card_le_card
        rw [List.toFinset_append]
        exact Finset.subset_union_left
    _ = setUnionCard xs ys := List.card_toFinset _

theorem pyInt_fl_between (q : ℚ) (h0 : 0 ≤ q) (h1 : q ≤ 100 + 1/100) :
    0 ≤ pyInt (fl q) ∧ pyInt (fl q) ≤ 100 := by
  have hfl0 : 0 ≤ fl q := fl_nonneg q
  have hfl1 : fl q ≤ q + q / 2 ^ (53:ℕ) := fl_le q h0
  have hq53 : q / 2 ^ (53:ℕ) ≤ (100 + 1/100) / 2 ^ (53:ℕ) := by gcongr
  have hsmall : ((100:ℚ) + 1/100) / 2 ^ (53:ℕ) ≤ 1/100 := by norm_num
  have hlt : fl q < 101 := by linarith
  constructor
  · exact Int.floor_nonneg.mpr hfl0
  · have : pyInt (fl q) < 101 := by
      rw [pyInt, Int.floor_lt]
      exact_mod_cast hlt
    omega

theorem wordOverlapScore_bounds (xs ys : List String) :
    0 ≤ wordOverlapScore xs ys ∧ wordOverlapScore xs ys ≤ 100 := by
  rw [wordOverlapScore]
  split_ifs with htot
  · have hle : setInterCard xs ys ≤ setUnionCard xs ys := setInterCard_le_setUnionCard xs ys
    have htotq : (0:ℚ) < (setUnionCard xs ys : ℚ) := by exact_mod_cast htot
    have h0 : (0:ℚ) ≤ (setInterCard xs ys : ℚ) / (setUnionCard xs ys : ℚ) := by positivity
    have h1 : (setInterCard xs ys : ℚ) / (setUnionCard xs ys : ℚ) ≤ 1 :=
      (div_le_one htotq).mpr (by exact_mod_cast hle)
    have hx1 : fl ((setInterCard xs ys : ℚ) / (setUnionCard xs ys : ℚ)) ≤ 1 + 1 / 2 ^ (53:ℕ) := by
      have h2 := fl_le _ h0
      have h3 : (setInterCard xs ys : ℚ) / (setUnionCard xs ys : ℚ) / 2 ^ (53:ℕ) ≤
          1 / 2 ^ (53:ℕ) := by gcongr
      linarith
    have hx0 : 0 ≤ fl ((setInterCard xs ys : ℚ) / (setUnionCard xs ys : ℚ)) := fl_nonneg _
    apply pyInt_fl_between
    · positivity
    · have : fl ((setInterCard xs ys : ℚ) / (setUnionCard xs ys : ℚ)) * 100 ≤
          (1 + 1 / 2 ^ (53:ℕ)) * 100 := by
        apply mul_le_mul_of_nonneg_right hx1
        norm_num
      have hnum : ((1:ℚ) + 1 / 2 ^ (53:ℕ)) * 100 ≤ 100 + 1/100 := by norm_num
      linarith
  · norm_num

theorem titleScore_bounds (ft at_ : String) :
    0 ≤ titleScore ft at_ ∧ titleScore ft at_ ≤ 100 := by
  have hw := wordOverlapScore_bounds (wordsOf ft) (wordsOf at_)
  constructor <;> simp only [titleScore] <;> split_ifs <;> first
    | exact hw.1
    | exact hw.2
    | norm_num

theorem authorScore_bounds (fa aa : String) :
    0 ≤ authorScore fa aa ∧ authorScore fa aa ≤ 100 := by
  have hw := wordOverlapScore_bounds (wordsOf fa) (wordsOf aa)
  constructor <;> simp only [authorScore] <;> split_ifs <;> first
    | exact hw.1
    | exact hw.2
    | norm_num

theorem combine_bounds (t a : ℤ) (ht0 : 0 ≤ t) (ht1 : t ≤ 100) (ha0 : 0 ≤ a)
    (ha1 : a ≤ 100) :
    0 ≤ pyInt (fl (fl ((t : ℚ) * c0p6) + fl ((a : ℚ) * c0p4))) ∧
      pyInt (fl (fl ((t : ℚ) * c0p6) + fl ((a : ℚ) * c0p4))) ≤ 100 := by
  have htq0 : (0:ℚ) ≤ (t : ℚ) := by exact_mod_cast ht0
  have htq1 : (t : ℚ) ≤ 100 := by exact_mod_cast ht1
  have haq0 : (0:ℚ) ≤ (a : ℚ) := by exact_mod_cast ha0
  have haq1 : (a : ℚ) ≤ 100 := by exact_mod_cast ha1
  have hc6a : (0:ℚ) ≤ c0p6 := by norm_num [c0p6]
  have hc6b : c0p6 ≤ 3/5 := by norm_num [c0p6]
  have hc4a : (0:ℚ) ≤ c0p4 := by norm_num [c0p4]
  have hc4b : c0p4 ≤ 2/5 + 1 / 2 ^ (53:ℕ) := by norm_num [c0p4]
  have hx0 : (0:ℚ) ≤ (t : ℚ) * c0p6 := mul_nonneg htq0 hc6a
  have hx1 : (t : ℚ) * c0p6 ≤ 60 := by
    calc (t : ℚ) * c0p6 ≤ 100 * (3/5) := mul_le_mul htq1 hc6b hc6a (by norm_num)
      _ = 60 := by norm_num
  have hy0 : (0:ℚ) ≤ (a : ℚ) * c0p4 := mul_nonneg haq0 hc4a
  have hy1 : (a : ℚ) * c0p4 ≤ 40 + 1/1000 := by
    calc (a : ℚ) * c0p4 ≤ 100 * (2/5 + 1 / 2 ^ (53:ℕ)) :=
        mul_le_mul haq1 hc4b hc4a (by norm_num)
      _ ≤ 40 + 1/1000 := by norm_num
  have hfx := fl_le _ hx0
  have hfy := fl_le _ hy0
  have hfx1 : fl ((t : ℚ) * c0p6) ≤ 60 + 1/1000 := by
    have : (t : ℚ) * c0p6 / 2 ^ (53:ℕ) ≤ 60 / 2 ^ (53:ℕ) := by gcongr
    have h60 : (60:ℚ) / 2 ^ (53:ℕ) ≤ 1/1000 := by norm_num
    linarith
  have hfy1 : fl ((a : ℚ) * c0p4) ≤ 40 + 2/1000 := by
    have : (a : ℚ) * c0p4 / 2 ^ (53:ℕ) ≤ (40 + 1/1000) / 2 ^ (53:ℕ) := by gcongr
    have h40 : ((40:ℚ) + 1/1000) / 2 ^ (53:ℕ) ≤ 1/1000 := by norm_num
    linarith
  apply pyInt_fl_between
  · have := fl_nonneg ((t : ℚ) * c0p6)
    have := fl_nonneg ((a : ℚ) * c0p4)
    linarith
  · linarith

theorem titleScore_self (X : String) (h : X ≠ "") : titleScore X X = 100 := by
  rw [titleScore, if_pos ⟨h, h⟩, if_pos rfl]

theorem authorScore_self (X : String) (h : X ≠ "") : authorScore X X = 100 := by
  rw [authorScore, if_pos ⟨h, h⟩, if_pos rfl]

theorem containsSub_self (l : List Char) : containsSub l l = true := by
  cases l with
  | nil => rfl
  | cons c rest =>
    rw [containsSub]
    have : (c :: rest).isPrefixOf (c :: rest) = true :=
      List.isPrefixOf_iff_prefix.mpr (List.prefix_refl _)
    rw [this]
    rfl

theorem setInterCard_zero_of_disjoint (xs ys : List String)
    (hd : ∀ w ∈ xs, w ∉ ys) : setInterCard xs ys = 0 := by
  rw [setInterCard, List.length_eq_zero, List.filter_eq_nil]
  intro w hw
  have hmem : w ∈ xs := List.mem_dedup.mp hw
  simp only [List.contains_iff_exists_mem_beq]
  rintro ⟨b, hb, hbeq⟩
  have : w = b := by simpa using hbeq
  exact hd w hmem (this ▸ hb)

theorem titleScore_disjoint (X Y : String)
    (hd : ∀ w ∈ wordsOf X, w ∉ wordsOf Y)
    (hs : X ≠ "" → Y ≠ "" →
      containsSub X.toList Y.toList = false ∧ containsSub Y.toList X.toList = false) :
    titleScore X Y = 0 := by
  simp only [titleScore]
  split_ifs with h1 h2 h3 h4
  · obtain ⟨hs1, hs2⟩ := hs h1.1 h1.2
    subst h2
    rw [containsSub_self] at hs1
    exact absurd hs1 (by simp)
  · obtain ⟨hs1, hs2⟩ := hs h1.1 h1.2
    rw [hs1, hs2] at h3
    exact absurd h3 (by simp)
  · exact wordOverlapScore_of_inter_zero _ _ (setInterCard_zero_of_disjoint _ _ hd)
  · rfl
  · rfl

theorem authorScore_disjoint (X Y : String)
    (hd : ∀ w ∈ wordsOf X, w ∉ wordsOf Y)
    (hs : X ≠ "" → Y ≠ "" →
      containsSub X.toList Y.toList = false ∧ containsSub Y.toList X.toList = false) :
    authorScore X Y = 0 := by
  simp only [authorScore]
  split_ifs with h1 h2 h3 h4 h5
  · obtain ⟨hs1, hs2⟩ := hs h1.1 h1.2
    subst h2
    rw [containsSub_self] at hs1
    exact absurd hs1 (by simp)
  · obtain ⟨hs1, hs2⟩ := hs h1.1 h1.2
    rw [hs1, hs2] at h3
    exact absurd h3 (by simp)
  · obtain ⟨hfl, hal, heq⟩ := h4
    have hxne : (wordsOf X).getLast? = some (((wordsOf X).getLast?).getD "") := by
      cases hx : (wordsOf X).getLast? with
      | none => rw [hx] at hfl; exact absurd rfl hfl
      | some w => rfl
    have hyne : (wordsOf Y).getLast? = some (((wordsOf Y).getLast?).getD "") := by
      cases hy : (wordsOf Y).getLast? with
      | none => rw [hy] at hal; exact absurd rfl hal
      | some w => rfl
    have hxmem : ((wordsOf X).getLast?).getD "" ∈ wordsOf X :=
      List.mem_of_mem_getLast? hxne
    have hymem : ((wordsOf Y).getLast?).getD "" ∈ wordsOf Y :=
      List.mem_of_mem_getLast? hyne
    exact absurd (heq ▸ hymem) (hd _ hxmem)
  · exact wordOverlapScore_of_inter_zero _ _ (setInterCard_zero_of_disjoint _ _ hd)
  · rfl
  · rfl

theorem calcConf_fst (w x y z : String) :
    (calculateMatchConfidence w x y z).1 =
      (if normalizeForComparison w = "" ∧ normalizeForComparison x = "" then 0
       else if normalizeForComparison w = "" then
         titleScore (normalizeForComparison x) (normalizeForComparison z)
       else if normalizeForComparison x = "" then
         authorScore (normalizeForComparison w) (normalizeForComparison y)
       else pyInt (fl (fl ((titleScore (normalizeForComparison x)
           (normalizeForComparison z) : ℚ) * c0p6) +
         fl ((authorScore (normalizeForComparison w)
           (normalizeForComparison y) : ℚ) * c0p4)))) := rfl

/-- C6 amended.  The combined confidence is always in `[0, 100]`; when the
normalized titles agree, the normalized authors agree and both are
*non-empty*, the score is exactly `100`; and when the title word sets and
the author word sets are disjoint *and additionally neither normalized
string of a pair is a substring of the other*, the score is `0`.  (The
original claim fails without the extra conditions: see the
counterexample.) -/
theorem c6_confidence_range_and_endpoints
    (fileAuthor fileTitle audibleAuthor audibleTitle : String) :
    (0 ≤ (calculateMatchConfidence fileAuthor fileTitle audibleAuthor audibleTitle).1 ∧
      (calculateMatchConfidence fileAuthor fileTitle audibleAuthor audibleTitle).1 ≤ 100) ∧
    (normalizeForComparison fileTitle = normalizeForComparison audibleTitle →
      normalizeForComparison fileAuthor = normalizeForComparison audibleAuthor →
      normalizeForComparison fileTitle ≠ "" →
      normalizeForComparison fileAuthor ≠ "" →
      (calculateMatchConfidence fileAuthor fileTitle audibleAuthor audibleTitle).1 = 100) ∧
    ((∀ w ∈ wordsOf (normalizeForComparison fileTitle),
        w ∉ wordsOf (normalizeForComparison audibleTitle)) →
      (∀ w ∈ wordsOf (normalizeForComparison fileAuthor),
        w ∉ wordsOf (normalizeForComparison audibleAuthor)) →
      (normalizeForComparison fileTitle ≠ "" → normalizeForComparison audibleTitle ≠ "" →
        containsSub (normalizeForComparison fileTitle).toList
            (normalizeForComparison audibleTitle).toList = false ∧
        containsSub (normalizeForComparison audibleTitle).toList
            (normalizeForComparison fileTitle).toList = false) →
      (normalizeForComparison fileAuthor ≠ "" → normalizeForComparison audibleAuthor ≠ "" →
        containsSub (normalizeForComparison fileAuthor).toList
            (normalizeForComparison audibleAuthor).toList = false ∧
        containsSub (normalizeForComparison audibleAuthor).toList
            (normalizeForComparison fileAuthor).toList = false) →
      (calculateMatchConfidence fileAuthor fileTitle audibleAuthor audibleTitle).1 = 0) := by
  refine ⟨?_, ?_, ?_⟩
  · rw [calcConf_fst]
    split_ifs with h1 h2 h3
    · norm_num
    · exact titleScore_bounds _ _
    · exact authorScore_bounds _ _
    · exact combine_bounds _ _ (titleScore_bounds _ _).1 (titleScore_bounds _ _).2
        (authorScore_bounds _ _).1 (authorScore_bounds _ _).2
  · intro hteq haeq htne hane
    rw [calcConf_fst, if_neg (fun h => hane h.1), if_neg hane, if_neg htne]
    rw [← hteq, ← haeq, titleScore_self _ htne, authorScore_self _ hane]
    rw [(by norm_num : ((100 : ℤ) : ℚ) = (100 : ℚ)), fl_100_c0p6, fl_100_c0p4]
    rw [(by norm_num : (60 : ℚ) + 40 = 100), fl_100, pyInt]
    rw [Int.floor_eq_iff]
    constructor <;> norm_num
  · intro hdt hda hst hsa
    rw [calcConf_fst]
    split_ifs with h1 h2 h3
    · rfl
    · exact titleScore_disjoint _ _ hdt hst
    · exact authorScore_disjoint _ _ hda hsa
    · rw [titleScore_disjoint _ _ hdt hst, authorScore_disjoint _ _ hda hsa]
      simp only [Int.cast_zero, zero_mul, fl_of_nonpos le_rfl, add_zero]
      rw [pyInt, Int.floor_zero]

theorem c6_confidence_range_and_endpoints_witness :
    (calculateMatchConfidence "ann" "fox" "ann" "fox").1 = 100 ∧
      (calculateMatchConfidence "ann" "fox" "bob" "hen").1 = 0 :=
  ⟨(c6_confidence_range_and_endpoints "ann" "fox" "ann" "fox").2.1
      (by decide) (by decide) (by decide) (by decide),
    (c6_confidence_range_and_endpoints "ann" "fox" "bob" "hen").2.2
      (by decide) (by decide)
      (fun _ _ => ⟨by decide, by decide⟩) (fun _ _ => ⟨by decide, by decide⟩)⟩

/-- C6 counterexample.  Two failures of the original claim.  (1) When every
input is empty the two sides are identical (the normalized titles and
authors agree trivially) yet the score is `0`, not `100`.  (2) File side
`author = "bob"`, `title = "den"`, catalog side `author = "sue"`,
`title = "garden"`: the title word sets (`{den}` vs `{garden}`) and the
author word sets (`{bob}` vs `{sue}`) are completely disjoint, yet because
`"den"` is a *substring* of `"garden"` the title score is `85` and the
combined score is `51`, not `0`. -/
theorem c6_counterexample :
    (calculateMatchConfidence "" "" "" "").1 = 0 ∧
      (calculateMatchConfidence "bob" "den" "sue" "garden").1 = 51 ∧
      (∀ w ∈ wordsOf (normalizeForComparison "den"),
        w ∉ wordsOf (normalizeForComparison "garden")) ∧
      (∀ w ∈ wordsOf (normalizeForComparison "bob"),
        w ∉ wordsOf (normalizeForComparison "sue")) := by
  refine ⟨?_, ?_, by decide, by decide⟩
  · rw [calcConf_fst, if_pos ⟨by decide, by decide⟩]
  · have hfa : normalizeForComparison "bob" = "bob" := by decide
    have hft : normalizeForComparison "den" = "den" := by decide
    have haa : normalizeForComparison "sue" = "sue" := by decide
    have hat : normalizeForComparison "garden" = "garden" := by decide
    have ht : titleScore "den" "garden" = 85 := by
      rw [titleScore, if_pos (by decide), if_neg (by decide), if_pos (by decide)]
    have ha : authorScore "bob" "sue" = 0 := by
      rw [authorScore, if_pos (by decide), if_neg (by decide), if_neg (by decide),
        if_neg (by decide), if_pos (by decide)]
      exact wordOverlapScore_of_inter_zero _ _ (by decide)
    rw [calcConf_fst, hfa, hft, haa, hat]
    rw [if_neg (by decide), if_neg (by decide), if_neg (by decide)]
    rw [ht, ha]
    rw [(by norm_num : ((85 : ℤ) : ℚ) = (85 : ℚ)), fl_85_c0p6]
    rw [Int.cast_zero, zero_mul, fl_of_nonpos le_rfl, add_zero, fl_51, pyInt]
    rw [Int.floor_eq_iff]
    constructor <;> norm_num

/-! ### C9: duplicate track numbers and the title fallback -/

theorem length_listSetAt (l : List α) (i : ℕ) (v : α) :
    (listSetAt l i v).length = l.length := by
  induction l generalizing i with
  | nil => rfl
  | cons c rest ih =>
    cases i with
    | zero => rfl
    | succ i' => simp [listSetAt, ih]

theorem getD_listSetAt_self (l : List (Option Track)) (k : ℕ) (v : Option Track)
    (hk : k < l.length) : (listSetAt l k v).getD k none = v := by
  induction l generalizing k with
  | nil => exact absurd hk (by simp)
  | cons c rest ih =>
    cases k with
    | zero => rfl
    | succ k' =>
      simp only [listSetAt, List.getD_cons_succ]
      exact ih k' (by simpa using hk)

theorem getD_listSetAt_isSome (l : List (Option Track)) (k i : ℕ) (t : Track)
    (h : (l.getD k none).isSome) :
    ((listSetAt l i (some t)).getD k none).isSome := by
  induction l generalizing k i with
  | nil => simpa using h
  | cons c rest ih =>
    cases i with
    | zero =>
      cases k with
      | zero => rfl
      | succ k' => simpa [listSetAt] using h
    | succ i' =>
      cases k with
      | zero => simpa [listSetAt] using h
      | succ k' =>
        simp only [listSetAt, List.getD_cons_succ] at h ⊢
        exact ih k' i' h

theorem pyIndex_lt (size : ℕ) (n : ℤ) (k : ℕ) (h : pyIndex size n = some k) :
    k < size := by
  rw [pyIndex] at h
  split_ifs at h with h1 h2
  · obtain ⟨ha, hb⟩ := h1
    have : n.toNat = k := by injection h
    omega
  · obtain ⟨ha, hb⟩ := h2
    have : ((size : ℤ) + n).toNat = k := by injection h
    omega

theorem fillSingle_cons_none (t : Track) (rest : List Track) (ch : List (Option Track))
    (hp : parseTrackNumTag t.tracknumber = none) : fillSingle (t :: rest) ch = none := by
  cases h : t.tracknumber with
  | none => simp [fillSingle, h]
  | some vals =>
    cases vals with
    | nil => simp [fillSingle, h]
    | cons s tl =>
      simp [parseTrackNumTag, h] at hp
      simp [fillSingle, h, hp]

theorem fillSingle_cons_noidx (t : Track) (rest : List Track) (ch : List (Option Track))
    (m : ℤ) (hp : parseTrackNumTag t.tracknumber = some m)
    (hpi : pyIndex ch.length m = none) : fillSingle (t :: rest) ch = none := by
  cases h : t.tracknumber with
  | none => simp [parseTrackNumTag, h] at hp
  | some vals =>
    cases vals with
    | nil => simp [parseTrackNumTag, h] at hp
    | cons s tl =>
      simp [parseTrackNumTag, h] at hp
      simp [fillSingle, h, hp, hpi]

theorem fillSingle_cons_idx (t : Track) (rest : List Track) (ch : List (Option Track))
    (m : ℤ) (k : ℕ) (hp : parseTrackNumTag t.tracknumber = some m)
    (hpi : pyIndex ch.length m = some k) :
    fillSingle (t :: rest) ch =
      if (ch.getD k none).isSome then none
      else fillSingle rest (listSetAt ch k (some t)) := by
  cases h : t.tracknumber with
  | none => simp [parseTrackNumTag, h] at hp
  | some vals =>
    cases vals with
    | nil => simp [parseTrackNumTag, h] at hp
    | cons s tl =>
      simp [parseTrackNumTag, h] at hp
      simp [fillSingle, h, hp, hpi]

theorem fillSingle_blocked (ts : List Track) (ch : List (Option Track)) (n : ℤ) (k : ℕ)
    (hidx : pyIndex ch.length n = some k) (hocc : (ch.getD k none).isSome)
    (j : ℕ) (tj : Track) (hgj : ts.get? j = some tj)
    (htj : parseTrackNumTag tj.tracknumber = some n) :
    fillSingle ts ch = none := by
  induction ts generalizing ch j with
  | nil => simp at hgj
  | cons t rest ih =>
    cases j with
    | zero =>
      have ht : t = tj := by simpa using hgj
      subst ht
      rw [fillSingle_cons_idx t rest ch n k htj hidx, if_pos hocc]
    | succ j' =>
      have hgj' : rest.get? j' = some tj := by simpa using hgj
      cases hp : parseTrackNumTag t.tracknumber with
      | none => exact fillSingle_cons_none t rest ch hp
      | some m =>
        cases hpi : pyIndex ch.length m with
        | none => exact fillSingle_cons_noidx t rest ch m hp hpi
        | some k' =>
          rw [fillSingle_cons_idx t rest ch m k' hp hpi]
          by_cases hob : (ch.getD k' none).isSome
          · rw [if_pos hob]
          · rw [if_neg hob]
            apply ih (listSetAt ch k' (some t)) _ _ j' hgj'
            · rw [length_listSetAt]
              exact hidx
            · exact getD_listSetAt_isSome ch k k' t hocc

theorem fillSingle_dup (ts : List Track) (ch : List (Option Track)) (i j : ℕ)
    (ti tj : Track) (n : ℤ) (hij : i < j)
    (hgi : ts.get? i = some ti) (hgj : ts.get? j = some tj)
    (hti : parseTrackNumTag ti.tracknumber = some n)
    (htj : parseTrackNumTag tj.tracknumber = some n) :
    fillSingle ts ch = none := by
  induction ts generalizing ch i j with
  | nil => simp at hgi
  | cons t rest ih =>
    cases i with
    | zero =>
      have ht : t = ti := by simpa using hgi
      subst ht
      obtain ⟨j', rfl⟩ : ∃ j', j = j' + 1 := ⟨j - 1, by omega⟩
      have hgj' : rest.get? j' = some tj := by simpa using hgj
      cases hpi : pyIndex ch.length n with
      | none => exact fillSingle_cons_noidx t rest ch n hti hpi
      | some k =>
        rw [fillSingle_cons_idx t rest ch n k hti hpi]
        by_cases hob : (ch.getD k none).isSome
        · rw [if_pos hob]
        · rw [if_neg hob]
          apply fillSingle_blocked rest (listSetAt ch k (some t)) n k _ _ j' tj hgj' htj
          · rw [length_listSetAt]
            exact hpi
          · rw [getD_listSetAt_self ch k (some t) (pyIndex_lt ch.length n k hpi)]
            rfl
    | succ i' =>
      obtain ⟨j', rfl⟩ : ∃ j', j = j' + 1 := ⟨j - 1, by omega⟩
      have hgi' : rest.get? i' = some ti := by simpa using hgi
      have hgj' : rest.get? j' = some tj := by simpa using hgj
      cases hp : parseTrackNumTag t.tracknumber with
      | none => exact fillSingle_cons_none t rest ch hp
      | some m =>
        cases hpi : pyIndex ch.length m with
        | none => exact fillSingle_cons_noidx t rest ch m hp hpi
        | some k' =>
          rw [fillSingle_cons_idx t rest ch m k' hp hpi]
          by_cases hob : (ch.getD k' none).isSome
          · rw [if_pos hob]
          · rw [if_neg hob]
            exact ih (listSetAt ch k' (some t)) i' j' (by omega) hgi' hgj'

/-- C9.  In single-disc mode (`hasMultipleDisks = false`), whenever two
distinct input files both declare the same (parseable) track number,
`orderByTrackNumber` returns the empty list, and `orderFiles` — when its
disc scan indeed reports a single disc — returns exactly what
`orderByTitle` returns: the title-based ordering is the fallback taken. -/
theorem c9_duplicate_track_number_falls_back
    (tracks : List Track) (i j : ℕ) (ti tj : Track) (n : ℤ) (hij : i < j)
    (hgi : tracks.get? i = some ti) (hgj : tracks.get? j = some tj)
    (hti : parseTrackNumTag ti.tracknumber = some n)
    (htj : parseTrackNumTag tj.tracknumber = some n)
    (hcm : computeHasMultipleDisks tracks false = .ok false) :
    orderByTrackNumber tracks false = [] ∧
      orderFiles tracks = orderByTitle tracks := by
  have hfill : fillSingle tracks (List.replicate (tracks.length + 1) none) = none :=
    fillSingle_dup tracks _ i j ti tj n hij hgi hgj hti htj
  have hempty : orderByTrackNumber tracks false = [] := by
    rw [orderByTrackNumber]
    simp only [Bool.false_eq_true, if_false, hfill]
  refine ⟨hempty, ?_⟩
  rw [orderFiles, hcm]
  simp [hempty]

theorem c9_duplicate_track_number_falls_back_witness :
    orderByTrackNumber [⟨"a.mp3", some ["1"], none⟩, ⟨"b.mp3", some ["1"], none⟩] false
        = [] ∧
      orderFiles [⟨"a.mp3", some ["1"], none⟩, ⟨"b.mp3", some ["1"], none⟩] =
        orderByTitle [⟨"a.mp3", some ["1"], none⟩, ⟨"b.mp3", some ["1"], none⟩] :=
  c9_duplicate_track_number_falls_back
    [⟨"a.mp3", some ["1"], none⟩, ⟨"b.mp3", some ["1"], none⟩] 0 1
    ⟨"a.mp3", some ["1"], none⟩ ⟨"b.mp3", some ["1"], none⟩ 1
    (by decide) rfl rfl rfl rfl rfl

end UltimateAudiobooks
